import Mathlib

/-!
Shallow embedding of the Socket core of `src/common/utxobased/network/Socket.ts`
(edge-currency-plugins): a resilient RPC client multiplexing request/response
and subscription exchanges over one duplex connection.

Modelling conventions:
* JS closure variables of `makeSocket` become fields of `SockState`.
* Stateful handlers become functions `SockState → ... → SockState × List Effect`,
  where `Effect` records the externally observable actions (wire sends, Deferred
  settlements, event emissions, user callbacks, queue interactions).
* `Date.now()` becomes an explicit `Int` argument; machine time is exact.
* Exceptions thrown by caller-supplied code (Deferred rejection handlers, the
  event emitter, validators, user callbacks) are modelled by explicit oracles:
  a `Nat → Bool` oracle for rejection attempts, `Except` results for validators,
  and `Option Err` outcomes for callbacks.  A caught exception contributes a
  `logErr` effect, exactly where the source logs it.
* JS objects used as string-keyed maps become association lists in insertion
  order (integer-like keys of `pendingMessages` enumerate in ascending numeric
  order, which coincides with insertion order since ids increase).
-/

namespace SocketModel

/-- Modelled from the spec: `ReadyState` lives in `network/types.ts`, which is
not part of the sources; the spec calls it the transport's "readiness state"
and `Socket.ts` only ever compares it against `ReadyState.OPEN`. -/
inductive ReadyState where
  | CONNECTING
  | OPEN
  | CLOSING
  | CLOSED
  deriving DecidableEq, Repr

/-- Errors constructed or propagated by the socket core.  `external` stands for
an opaque error thrown by caller-supplied code (emitter, validator, callback),
`wrapped` for the transport error callback's `new Error(JSON.stringify(event))`. -/
inductive Err where
  | socketClose
  | timeout
  | badResponseId
  | server (msg : Option String)
  | wrapped (event : Nat)
  | external (n : Nat)
  deriving DecidableEq, Repr

/-- A `WsTask<T>`: method, params, and a Deferred for the result.  The Deferred
object's identity is modelled by the ghost field `tag`; the optional `cleaner`
validator is a function that either returns the cleaned value or throws. -/
structure WsTask where
  method : String
  params : Option Nat
  tag : Nat
  cleaner : Option (Option Nat → Except Err Nat)

/-- A `WsSubscription<T>`: method (doubles as correlation key), params, the
acknowledged flag, the mandatory validator, and the user callback.  The
callback's possible throw is modelled by `cbThrows` (its invocation is recorded
as an effect); the subscription's Deferred is identified by the method key. -/
structure WsSubscription where
  method : String
  params : Option Nat
  subscribed : Bool
  cleaner : Option Nat → Except Err Nat
  cbThrows : Nat → Option Err

/-- A Pending-set entry: `{ task, startTime }`. -/
structure WsMessage where
  task : WsTask
  startTime : Int

/-- Externally observable actions of the socket core. -/
inductive Effect where
  | send (id : String) (method : String) (params : Option Nat)
  | taskResolve (tag : Nat) (v : Option Nat)
  | taskReject (tag : Nat) (e : Err)
  | subResolve (method : String) (d : Option Nat)
  | subReject (method : String)
  | userCb (method : String) (v : Nat)
  | emitOpen
  | emitClose (e : Err)
  | emitTimer
  | transportDisconnect
  | removeFromQueue
  | scheduleWakeUp
  | healthCheck
  | pullInvoked (size : Nat)
  | logErr
  deriving DecidableEq, Repr

/-- The closure state of `makeSocket`. -/
structure SockState where
  socket : Option ReadyState
  connected : Bool
  cancelConnect : Bool
  error : Option Err
  pending : List (String × WsMessage)
  subs : List (String × WsSubscription)
  nextId : Nat
  lastKeepAlive : Int
  lastWakeUp : Int

/-- Configuration after defaulting: `queueSize = config.queueSize ?? 50`,
`timeoutMs = 1000 * (config.timeout ?? 30)`. -/
structure Config where
  queueSize : Nat
  timeoutMs : Int

/-- Applies the source's `queueSize = 50` destructuring default. -/
def resolveQueueSize (q : Option Nat) : Nat := q.getD 50

/-- Applies the source's `timeout = 1000 * (config.timeout ?? 30)`. -/
def resolveTimeout (t : Option Int) : Int := 1000 * t.getD 30

def TIMER_SLACK : Int := 500

def KEEP_ALIVE_MS : Int := 60000

def WAKE_UP_MS : Int := 5000

/-- Initial closure state of `makeSocket`: no transport, not connected, no
memoized error, empty Pending and Subscriptions, id counter at 0. -/
def initState : SockState :=
  { socket := none, connected := false, cancelConnect := false, error := none
    pending := [], subs := [], nextId := 0, lastKeepAlive := 0, lastWakeUp := 0 }

/-- Association-list lookup, mirroring a JS string-keyed object read. -/
def lookupAssoc {α : Type} (l : List (String × α)) (k : String) : Option α :=
  match l with
  | [] => none
  | (k', v) :: rest => if k' = k then some v else lookupAssoc rest k

/-- Association-list write, mirroring JS object assignment: an existing key is
overwritten in place, a new key is appended. -/
def insertAssoc {α : Type} (l : List (String × α)) (k : String) (v : α) :
    List (String × α) :=
  match l with
  | [] => [(k, v)]
  | (k', v') :: rest =>
    if k' = k then (k', v) :: rest else (k', v') :: insertAssoc rest k v

/-- Modelled from the spec: `removeItem` lives in `plugin/utils.ts`, which is
not part of the sources; the spec describes it as removing the entry for a key
("remove from Pending"), i.e. a JS `delete obj[key]`. -/
def removeAssoc {α : Type} (l : List (String × α)) (k : String) :
    List (String × α) :=
  l.filter fun p => p.1 ≠ k

/-- The transmission gate of `transmitMessage`: transport exists, transport
reports open, `connected` flag set, no cancellation pending. -/
def canSend (s : SockState) : Prop :=
  s.socket = some ReadyState.OPEN ∧ s.connected = true ∧ s.cancelConnect = false

instance (s : SockState) : Decidable (canSend s) := by
  unfold canSend; infer_instance

/-- The `disconnect` closure (the private one): clears the timer, drops the
`connected` flag, tells the transport to close, and cancels the coalesced
wake-up for this key.  It does not touch Pending or the error memo. -/
def disconnect (s : SockState) : SockState × List Effect :=
  ({ s with connected := false },
   (match s.socket with
    | some _ => [Effect.transportDisconnect]
    | none => []) ++ [Effect.removeFromQueue])

/-- The generic error handler `handleError`: memoizes the first error
(`if (error == null) error = e`), then disconnects if currently open, else
sets the cancellation flag. -/
def handleError (s : SockState) (e : Err) : SockState × List Effect :=
  let s1 := if s.error = none then { s with error := some e } else s
  if s1.connected = true ∧ s1.socket = some ReadyState.OPEN then disconnect s1
  else ({ s1 with cancelConnect := true }, [])

/-- The transport close callback `onSocketClose`: computes the rejection cause
`error ?? new Error('Socket close')`, clears the connection state, rejects each
Pending entry inside its own try/catch (oracle `θ` tells which rejection
attempts throw; a throw is only logged), empties Pending, then emits
`CONNECTION_CLOSE` inside a try/catch (`emitThrows` tells whether it throws). -/
def onSocketClose (s : SockState) (θ : Nat → Bool) (emitThrows : Bool) :
    SockState × List Effect :=
  let err := s.error.getD Err.socketClose
  let rejects := s.pending.flatMap fun p =>
    Effect.taskReject p.2.task.tag err ::
      (if θ p.2.task.tag then [Effect.logErr] else [])
  ({ s with connected := false, socket := none, cancelConnect := false,
            pending := [] },
   rejects ++ [Effect.emitClose err] ++ (if emitThrows then [Effect.logErr] else []))

/-- `transmitMessage`: sends only when the full gate `canSend` holds; on a send
the entry's `startTime` is refreshed to now (the entry object is aliased into
the Pending map, so the refresh is modelled as an in-place map update); when the
gate fails the call does nothing at all. -/
def transmitMessage (s : SockState) (id : String) (m : WsMessage) (now : Int) :
    SockState × List Effect :=
  if canSend s then
    ({ s with pending := s.pending.map fun p =>
        if p.1 = id then (p.1, { p.2 with startTime := now }) else p },
     [Effect.send id m.task.method m.task.params])
  else (s, [])

/-- `submitTask`: assigns id `(nextId++).toString()`, stores
`{ task, startTime: now }` into Pending, then attempts transmission. -/
def submitTask (s : SockState) (t : WsTask) (now : Int) : SockState × List Effect :=
  let id := Nat.repr s.nextId
  let m : WsMessage := { task := t, startTime := now }
  let s1 := { s with nextId := s.nextId + 1, pending := s.pending ++ [(id, m)] }
  transmitMessage s1 id m now

/-- `subscribe`: the whole body is gated on
`socket != null && socket.readyState === OPEN && connected` (note: unlike
`transmitMessage`, `cancelConnect` is not consulted); inside the gate the
subscription is recorded under its method name and the message sent. -/
def subscribe (s : SockState) (sub : WsSubscription) : SockState × List Effect :=
  if s.socket = some ReadyState.OPEN ∧ s.connected = true then
    ({ s with subs := insertAssoc s.subs sub.method sub },
     [Effect.send sub.method sub.method sub.params])
  else (s, [])

/-- The transport open callback `onSocketConnect` uses this loop to retransmit
every Pending entry in insertion order (`for (const [id, message] of
Object.entries(pendingMessages)) transmitMessage(id, message)`). -/
def retransmitAll (s : SockState) (ids : List String) (now : Int) :
    SockState × List Effect :=
  match ids with
  | [] => (s, [])
  | id :: rest =>
    match lookupAssoc s.pending id with
    | none => retransmitAll s rest now
    | some m =>
      let r := transmitMessage s id m now
      let r' := retransmitAll r.1 rest now
      (r'.1, r.2 ++ r'.2)

/-- The transport open callback `onSocketConnect`: aborts (tearing the transport
down) if a cancellation was requested while connecting; otherwise sets
`connected`, resets the keep-alive clock, emits `CONNECTION_OPEN` (a throw from
the emitter goes to `handleError`, modelled by `emitErr`), retransmits every
Pending entry in order, schedules a wake-up, and clears the cancel flag. -/
def onSocketConnect (s : SockState) (now : Int) (emitErr : Option Err) :
    SockState × List Effect :=
  if s.cancelConnect then
    (s, match s.socket with
        | some _ => [Effect.transportDisconnect]
        | none => [])
  else
    let s1 := { s with connected := true, lastKeepAlive := now }
    let r2 : SockState × List Effect :=
      match emitErr with
      | none => (s1, [Effect.emitOpen])
      | some e =>
        let r := handleError s1 e
        (r.1, Effect.emitOpen :: r.2)
    let r3 := retransmitAll r2.1 (r2.1.pending.map Prod.fst) now
    ({ r3.1 with cancelConnect := false },
     r2.2 ++ r3.2 ++ [Effect.scheduleWakeUp])

/-- The timer callback `onTimer`: evaluates `now = Date.now() - TIMER_SLACK`;
fires the keep-alive health check when due (its asynchronous continuation —
`CONNECTION_TIMER` on success, `handleError` on failure — runs in a later turn
and is outside this step); then sweeps Pending: every entry with
`startTime + timeout < now` has its Deferred rejected with a timeout error
inside its own try/catch (oracle `θ`; a throw is only logged) and is removed;
finally a wake-up is scheduled and the timer rearmed. -/
def onTimer (cfg : Config) (s : SockState) (dateNow : Int) (θ : Nat → Bool) :
    SockState × List Effect :=
  let now := dateNow - TIMER_SLACK
  let r1 : SockState × List Effect :=
    if s.lastKeepAlive + KEEP_ALIVE_MS < now then
      ({ s with lastKeepAlive := now }, [Effect.healthCheck])
    else (s, [])
  let rejects := r1.1.pending.flatMap fun p =>
    if p.2.startTime + cfg.timeoutMs < now then
      Effect.taskReject p.2.task.tag Err.timeout ::
        (if θ p.2.task.tag then [Effect.logErr] else [])
    else []
  let pending' := r1.1.pending.filter fun p =>
    decide ¬(p.2.startTime + cfg.timeoutMs < now)
  ({ r1.1 with pending := pending' },
   r1.2 ++ rejects ++ [Effect.scheduleWakeUp])

/-- A server error payload `{ message?, connected? }`; the source builds the
rejection reason as `error.message != null ? error.message : error.connected`. -/
structure SrvErr where
  message : Option String
  connected : Option String
  deriving DecidableEq, Repr

/-- A parsed inbound frame as seen by `onMessage` after `JSON.parse`:
either the parse threw (`malformed`), or the frame has no id, or it carries an
id plus the `data?.subscribed != null` marker, the payload and an optional
server error object. -/
inductive Inbound where
  | malformed (e : Err)
  | noId
  | frame (id : String) (marker : Bool) (data : Option Nat) (srvErr : Option SrvErr)

/-- The message callback `onMessage`.  Dispatch, faithful to the source:
subscriptions are scanned first; an acknowledgment frame (marker present) marks
the subscription acknowledged, resolves its Deferred and returns WITHOUT
scheduling a wake-up; an update frame first rejects the Deferred if the
subscription was never acknowledged and then STILL passes the payload through
the validator and delivers it to the callback (the source has no early return
after the reject); a validator or callback throw is logged and rethrown into
`handleError`.  Otherwise the id must match a Pending entry, which is removed
and resolved/rejected; an unmatched id throws `Bad response id` into
`handleError`.  `wakeUp()` runs after the outer try/catch, which the successful
subscription paths skip via `return`. -/
def onMessage (s : SockState) (inb : Inbound) : SockState × List Effect :=
  match inb with
  | Inbound.malformed e =>
    let r := handleError s e
    (r.1, r.2 ++ [Effect.scheduleWakeUp])
  | Inbound.noId => (s, [Effect.scheduleWakeUp])
  | Inbound.frame id marker data srvErr =>
    match lookupAssoc s.subs id with
    | some sub =>
      if marker then
        ({ s with subs := insertAssoc s.subs id { sub with subscribed := true } },
         [Effect.subResolve id data])
      else
        let rejects := if sub.subscribed then [] else [Effect.subReject id]
        match sub.cleaner data with
        | Except.error e =>
          let r := handleError s e
          (r.1, rejects ++ [Effect.logErr] ++ r.2 ++ [Effect.scheduleWakeUp])
        | Except.ok v =>
          match sub.cbThrows v with
          | some e =>
            let r := handleError s e
            (r.1, rejects ++ [Effect.userCb id v, Effect.logErr] ++ r.2 ++
              [Effect.scheduleWakeUp])
          | none => (s, rejects ++ [Effect.userCb id v])
    | none =>
      match lookupAssoc s.pending id with
      | none =>
        let r := handleError s Err.badResponseId
        (r.1, r.2 ++ [Effect.scheduleWakeUp])
      | some m =>
        let s1 := { s with pending := removeAssoc s.pending id }
        match srvErr with
        | some se =>
          (s1, [Effect.logErr,
                Effect.taskReject m.task.tag
                  (Err.server (se.message.orElse fun _ => se.connected)),
                Effect.scheduleWakeUp])
        | none =>
          match m.task.cleaner with
          | some c =>
            match c data with
            | Except.ok v =>
              (s1, [Effect.taskResolve m.task.tag (some v), Effect.scheduleWakeUp])
            | Except.error e =>
              (s1, [Effect.logErr, Effect.taskReject m.task.tag e,
                    Effect.scheduleWakeUp])
          | none =>
            (s1, [Effect.taskResolve m.task.tag data, Effect.scheduleWakeUp])

/-- The result of one `onQueueSpace(uri)` pull:
`undefined`, a boolean, or a task. -/
inductive PullResult where
  | skip
  | bool (b : Bool)
  | task (t : WsTask)

/-- The pull loop of `doWakeUp`: `while (pending size < queueSize)` invoke the
pull callback (each invocation recorded with the Pending size it observed);
`undefined` stops, `true` continues, `false` stops, a task is submitted.  The
list `pulls` supplies the successive callback results (the loop stops if they
run out). -/
def doWakeUpLoop (cfg : Config) (s : SockState) (now : Int) :
    List PullResult → SockState × List Effect
  | [] => (s, [])
  | p :: rest =>
    if s.pending.length < cfg.queueSize then
      let inv := Effect.pullInvoked s.pending.length
      match p with
      | PullResult.skip => (s, [inv])
      | PullResult.bool true =>
        let r := doWakeUpLoop cfg s now rest
        (r.1, inv :: r.2)
      | PullResult.bool false => (s, [inv])
      | PullResult.task t =>
        let r := submitTask s t now
        let r' := doWakeUpLoop cfg r.1 now rest
        (r'.1, inv :: (r.2 ++ r'.2))
    else (s, [])

/-- The executed wake-up cycle `doWakeUp`: stamps `lastWakeUp`, and runs the
pull loop only when `connected` (the `version != null` conjunct of the source is
always true, `version` being the constant `''`). -/
def doWakeUp (cfg : Config) (s : SockState) (now : Int) (pulls : List PullResult) :
    SockState × List Effect :=
  let s1 := { s with lastWakeUp := now }
  if s1.connected then doWakeUpLoop cfg s1 now pulls else (s1, [])

/-- The transport error callback installed by `connect`:
`error = new Error(JSON.stringify(event))` — an unconditional overwrite of the
memo, with no other state change. -/
def onTransportError (s : SockState) (event : Nat) : SockState :=
  { s with error := some (Err.wrapped event) }

/-- The public `disconnect`: clears the transport handle and runs the private
`disconnect`. -/
def disconnectPublic (s : SockState) : SockState × List Effect :=
  let effs : List Effect :=
    match s.socket with
    | some _ => [Effect.transportDisconnect]
    | none => []
  let r := disconnect { s with socket := none }
  (r.1, effs ++ r.2)

/-! ### Injectivity of the id encoding

`submitTask` assigns `(nextId++).toString()`; Lean's `Nat.repr` computes the
same decimal string.  We show it is injective, via a structurally recursive
reformulation of core's fuelled `Nat.toDigitsCore`. -/

/-- Decimal digit list of `n`, most significant first (fuel-free form of
`Nat.toDigits 10`). -/
def decDigits (n : Nat) : List Char :=
  if h : n < 10 then [Nat.digitChar n]
  else decDigits (n / 10) ++ [Nat.digitChar (n % 10)]
decreasing_by exact Nat.div_lt_self (by omega) (by omega)

theorem decDigits_of_lt (n : Nat) (h : n < 10) :
    decDigits n = [Nat.digitChar n] := by
  rw [decDigits, dif_pos h]

theorem decDigits_of_ge (n : Nat) (h : ¬n < 10) :
    decDigits n = decDigits (n / 10) ++ [Nat.digitChar (n % 10)] := by
  rw [decDigits, dif_neg h]

theorem decDigits_ne_nil (n : Nat) : decDigits n ≠ [] := by
  by_cases h : n < 10
  · rw [decDigits_of_lt n h]; simp
  · rw [decDigits_of_ge n h]; simp

theorem toDigitsCore_eq_decDigits :
    ∀ (fuel n : Nat) (acc : List Char), n < fuel →
      Nat.toDigitsCore 10 fuel n acc = decDigits n ++ acc := by
  intro fuel
  induction fuel with
  | zero => intro n acc h; omega
  | succ f ih =>
    intro n acc h
    by_cases h10 : n < 10
    · have hdiv : n / 10 = 0 := Nat.div_eq_of_lt h10
      have hmod : n % 10 = n := Nat.mod_eq_of_lt h10
      rw [decDigits_of_lt n h10]
      simp [Nat.toDigitsCore, hdiv, hmod]
    · have hdiv : n / 10 ≠ 0 := by
        intro h0
        exact h10 (by omega : n < 10)
      have hlt : n / 10 < f := by
        have : n / 10 < n := Nat.div_lt_self (by omega) (by omega)
        omega
      simp only [Nat.toDigitsCore, hdiv, if_false]
      rw [ih (n / 10) (Nat.digitChar (n % 10) :: acc) hlt]
      rw [decDigits_of_ge n h10]
      simp

theorem repr_eq_decDigits (n : Nat) : Nat.repr n = (decDigits n).asString := by
  unfold Nat.repr Nat.toDigits
  rw [toDigitsCore_eq_decDigits (n + 1) n [] (by omega)]
  simp

theorem digitChar_inj_lt (a b : Nat) (ha : a < 10) (hb : b < 10)
    (h : Nat.digitChar a = Nat.digitChar b) : a = b := by
  have key : ∀ x y : Fin 10, Nat.digitChar x.val = Nat.digitChar y.val → x.val = y.val := by
    decide
  exact key ⟨a, ha⟩ ⟨b, hb⟩ h

theorem decDigits_inj : ∀ m n : Nat, decDigits m = decDigits n → m = n := by
  intro m
  induction m using Nat.strong_induction_on with
  | _ m ih =>
    intro n h
    by_cases hm : m < 10 <;> by_cases hn : n < 10
    · rw [decDigits_of_lt m hm, decDigits_of_lt n hn] at h
      exact digitChar_inj_lt m n hm hn (List.singleton_injective h)
    · rw [decDigits_of_lt m hm, decDigits_of_ge n hn] at h
      have hlen := congrArg List.length h
      simp at hlen
      exact absurd hlen (decDigits_ne_nil _)
    · rw [decDigits_of_ge m hm, decDigits_of_lt n hn] at h
      have hlen := congrArg List.length h
      simp at hlen
      exact absurd hlen (decDigits_ne_nil _)
    · rw [decDigits_of_ge m hm, decDigits_of_ge n hn] at h
      have hlen : (decDigits (m / 10)).length = (decDigits (n / 10)).length := by
        have := congrArg List.length h
        simp at this
        omega
      obtain ⟨h1, h2⟩ := List.append_inj h hlen
      have hdiv : m / 10 = n / 10 :=
        ih (m / 10) (Nat.div_lt_self (by omega) (by omega)) _ h1
      have hmod : m % 10 = n % 10 :=
        digitChar_inj_lt _ _ (Nat.mod_lt _ (by omega)) (Nat.mod_lt _ (by omega))
          (List.singleton_injective h2)
      omega

theorem natRepr_injective : Function.Injective Nat.repr := by
  intro m n h
  rw [repr_eq_decDigits, repr_eq_decDigits] at h
  exact decDigits_inj m n (by
    have : (decDigits m).asString.data = (decDigits n).asString.data := by rw [h]
    simpa [List.asString] using this)

/-! ### URI normalization performed by `connect`

`const fullUri = uri.replace(/\/websocket\/?$/, '') + '/websocket'`.
The regular expression is anchored at the end of the string, so its unique
match (when any) is a terminal `/websocket` or `/websocket/`; strings are
modelled as `List Char`. -/

/-- The character list of `"/websocket"`. -/
def wsSuffix : List Char := ['/', 'w', 'e', 'b', 's', 'o', 'c', 'k', 'e', 't']

/-- The replace step `uri.replace(/\/websocket\/?$/, '')`: the greedy optional
slash means a terminal `/websocket/` (11 chars) is removed when present,
otherwise a terminal `/websocket` (10 chars), otherwise nothing. -/
def stripWebsocketSuffix (s : List Char) : List Char :=
  if (wsSuffix ++ ['/']).isSuffixOf s then s.take (s.length - 11)
  else if wsSuffix.isSuffixOf s then s.take (s.length - 10)
  else s

/-- The full normalization: strip one terminal `/websocket(/)?`, then append
`/websocket`. -/
def normalizeUri (s : List Char) : List Char := stripWebsocketSuffix s ++ wsSuffix

/-- States the claim's headline: the result ends in exactly one `/websocket`
suffix (it ends in the suffix, and not in a doubled copy of it). -/
def endsInExactlyOneWebsocket (s : List Char) : Prop :=
  wsSuffix <:+ s ∧ ¬(wsSuffix ++ wsSuffix) <:+ s

instance (s : List Char) : Decidable (endsInExactlyOneWebsocket s) := by
  unfold endsInExactlyOneWebsocket; infer_instance

theorem not_slash_suffix_of_ws (t : List Char) :
    ¬(wsSuffix ++ ['/']).isSuffixOf (t ++ wsSuffix) := by
  rw [List.isSuffixOf_iff_suffix]
  rintro ⟨p, hp⟩
  have h1 : (p ++ (wsSuffix ++ ['/'])).getLast? = some '/' := by
    rw [List.getLast?_append_of_ne_nil _ (by simp [wsSuffix])]
    simp [wsSuffix]
  have h2 : (t ++ wsSuffix).getLast? = some 't' := by
    rw [List.getLast?_append_of_ne_nil _ (by simp [wsSuffix])]
    simp [wsSuffix]
  rw [hp, h2] at h1
  exact absurd (Option.some.inj h1) (by decide)

theorem stripWebsocketSuffix_append (t : List Char) :
    stripWebsocketSuffix (t ++ wsSuffix) = t := by
  unfold stripWebsocketSuffix
  rw [if_neg (by simpa using not_slash_suffix_of_ws t)]
  rw [if_pos (List.isSuffixOf_iff_suffix.mpr (List.suffix_append t wsSuffix))]
  have hlen : (t ++ wsSuffix).length - 10 = t.length := by
    simp [wsSuffix]
  rw [hlen, List.take_left]

theorem stripWebsocketSuffix_append_slash (t : List Char) :
    stripWebsocketSuffix (t ++ (wsSuffix ++ ['/'])) = t := by
  unfold stripWebsocketSuffix
  rw [if_pos (List.isSuffixOf_iff_suffix.mpr (List.suffix_append t _))]
  have hlen : (t ++ (wsSuffix ++ ['/'])).length - 11 = t.length := by
    simp [wsSuffix]
  rw [hlen, List.take_left]

theorem normalizeUri_endsWith (s : List Char) : wsSuffix <:+ normalizeUri s :=
  List.suffix_append _ _

theorem normalizeUri_idempotent (s : List Char) :
    normalizeUri (normalizeUri s) = normalizeUri s := by
  unfold normalizeUri
  rw [stripWebsocketSuffix_append]

theorem normalizeUri_of_not_suffix (s : List Char)
    (h : ¬wsSuffix.isSuffixOf s) (h' : ¬(wsSuffix ++ ['/']).isSuffixOf s) :
    normalizeUri s = s ++ wsSuffix := by
  unfold normalizeUri stripWebsocketSuffix
  rw [if_neg h', if_neg h]

theorem normalizeUri_of_suffix (s : List Char) (h : wsSuffix <:+ s) :
    normalizeUri s = s := by
  obtain ⟨t, rfl⟩ := h
  unfold normalizeUri
  rw [stripWebsocketSuffix_append]

/-! ### Execution model

A ghost world pairs the closure state with the set of Deferred tags already
settled (each `taskResolve`/`taskReject` effect settles its tag).  The step
relation enumerates the trigger classes of the source: caller calls
(`submitTask`, `subscribe`, `disconnect`), transport callbacks (open, message,
error, close), the timer, the generic error handler, and the coalesced wake-up
cycle.  Caller steps that introduce tasks carry the caller contract that each
submitted task owns a fresh Deferred. -/

structure World where
  s : SockState
  settled : List Nat

/-- Tags settled by a list of effects. -/
def settledOf (effs : List Effect) : List Nat :=
  effs.filterMap fun e =>
    match e with
    | Effect.taskResolve tag _ => some tag
    | Effect.taskReject tag _ => some tag
    | _ => none

def applyOp (w : World) (r : SockState × List Effect) : World :=
  { s := r.1, settled := w.settled ++ settledOf r.2 }

/-- Tags of the Pending entries, in order. -/
def tagsOf (s : SockState) : List Nat := s.pending.map fun p => p.2.task.tag

/-- Correlation ids of the Pending entries, in order. -/
def keysOf (s : SockState) : List String := s.pending.map Prod.fst

/-- The caller contract for a submitted task: its Deferred has never been
settled and is not shared with any task still pending. -/
def freshTag (w : World) (tag : Nat) : Prop :=
  tag ∉ w.settled ∧ tag ∉ tagsOf w.s

/-- Tasks appearing in a pull-result sequence. -/
def tasksOfPulls : List PullResult → List WsTask
  | [] => []
  | PullResult.task t :: rest => t :: tasksOfPulls rest
  | _ :: rest => tasksOfPulls rest

/-- The caller contract for a wake-up cycle: every pulled task's Deferred is
fresh, and the pulled tasks are pairwise distinct. -/
def pullsFresh (w : World) (pulls : List PullResult) : Prop :=
  (∀ t ∈ tasksOfPulls pulls, freshTag w t.tag) ∧
  ((tasksOfPulls pulls).map WsTask.tag).Nodup

inductive Step (cfg : Config) : World → World → Prop where
  | submit (w : World) (t : WsTask) (now : Int) (h : freshTag w t.tag) :
      Step cfg w (applyOp w (submitTask w.s t now))
  | timer (w : World) (dateNow : Int) (θ : Nat → Bool) :
      Step cfg w (applyOp w (onTimer cfg w.s dateNow θ))
  | message (w : World) (inb : Inbound) :
      Step cfg w (applyOp w (onMessage w.s inb))
  | close (w : World) (θ : Nat → Bool) (emitThrows : Bool) :
      Step cfg w (applyOp w (onSocketClose w.s θ emitThrows))
  | sockConnect (w : World) (now : Int) (emitErr : Option Err) :
      Step cfg w (applyOp w (onSocketConnect w.s now emitErr))
  | wake (w : World) (now : Int) (pulls : List PullResult)
      (h : pullsFresh w pulls) :
      Step cfg w (applyOp w (doWakeUp cfg w.s now pulls))
  | subscribeStep (w : World) (sub : WsSubscription) :
      Step cfg w (applyOp w (subscribe w.s sub))
  | errorStep (w : World) (e : Err) :
      Step cfg w (applyOp w (handleError w.s e))
  | transportError (w : World) (event : Nat) :
      Step cfg w ⟨onTransportError w.s event, w.settled⟩
  | disconnectStep (w : World) :
      Step cfg w (applyOp w (disconnectPublic w.s))

def initWorld : World := { s := initState, settled := [] }

/-- Worlds reachable from a fresh `makeSocket` closure. -/
def Reach (cfg : Config) (w : World) : Prop :=
  Relation.ReflTransGen (Step cfg) initWorld w

/-- The correlation/settlement invariant: no pending Deferred was ever settled,
pending tags are pairwise distinct, pending ids are pairwise distinct, and
every pending id is the decimal print of a counter value below `nextId`. -/
def Inv (w : World) : Prop :=
  (∀ tag ∈ tagsOf w.s, tag ∉ w.settled) ∧
  (tagsOf w.s).Nodup ∧
  (keysOf w.s).Nodup ∧
  (∀ key ∈ keysOf w.s, ∃ k, k < w.s.nextId ∧ key = Nat.repr k)

theorem inv_initWorld : Inv initWorld := by
  refine ⟨?_, ?_, ?_, ?_⟩ <;> simp [initWorld, initState, tagsOf, keysOf]

/-! Structure-preservation lemmas for the individual operations. -/

theorem transmitMessage_tagsOf (s : SockState) (id : String) (m : WsMessage)
    (now : Int) : tagsOf (transmitMessage s id m now).1 = tagsOf s := by
  unfold transmitMessage
  split
  · simp only [tagsOf, List.map_map]
    apply List.map_congr_left
    intro p _
    by_cases hp : p.1 = id <;> simp [hp]
  · rfl

theorem transmitMessage_keysOf (s : SockState) (id : String) (m : WsMessage)
    (now : Int) : keysOf (transmitMessage s id m now).1 = keysOf s := by
  unfold transmitMessage
  split
  · simp only [keysOf, List.map_map]
    apply List.map_congr_left
    intro p _
    by_cases hp : p.1 = id <;> simp [hp]
  · rfl

theorem transmitMessage_nextId (s : SockState) (id : String) (m : WsMessage)
    (now : Int) : (transmitMessage s id m now).1.nextId = s.nextId := by
  unfold transmitMessage
  split <;> rfl

theorem transmitMessage_settledOf (s : SockState) (id : String) (m : WsMessage)
    (now : Int) : settledOf (transmitMessage s id m now).2 = [] := by
  unfold transmitMessage
  split <;> rfl

theorem retransmitAll_sig (now : Int) :
    ∀ (ids : List String) (s : SockState),
      tagsOf (retransmitAll s ids now).1 = tagsOf s ∧
      keysOf (retransmitAll s ids now).1 = keysOf s ∧
      (retransmitAll s ids now).1.nextId = s.nextId ∧
      settledOf (retransmitAll s ids now).2 = [] := by
  intro ids
  induction ids with
  | nil => intro s; exact ⟨rfl, rfl, rfl, rfl⟩
  | cons id rest ih =>
    intro s
    unfold retransmitAll
    match hlook : lookupAssoc s.pending id with
    | none => simpa using ih s
    | some m =>
      simp only
      obtain ⟨h1, h2, h3, h4⟩ := ih (transmitMessage s id m now).1
      refine ⟨?_, ?_, ?_, ?_⟩
      · rw [h1, transmitMessage_tagsOf]
      · rw [h2, transmitMessage_keysOf]
      · rw [h3, transmitMessage_nextId]
      · rw [settledOf, List.filterMap_append, ← settledOf, ← settledOf, h4,
          transmitMessage_settledOf, List.nil_append]

theorem submitTask_tagsOf (s : SockState) (t : WsTask) (now : Int) :
    tagsOf (submitTask s t now).1 = tagsOf s ++ [t.tag] := by
  unfold submitTask
  rw [transmitMessage_tagsOf]
  simp [tagsOf]

theorem submitTask_keysOf (s : SockState) (t : WsTask) (now : Int) :
    keysOf (submitTask s t now).1 = keysOf s ++ [Nat.repr s.nextId] := by
  unfold submitTask
  rw [transmitMessage_keysOf]
  simp [keysOf]

theorem submitTask_nextId (s : SockState) (t : WsTask) (now : Int) :
    (submitTask s t now).1.nextId = s.nextId + 1 := by
  unfold submitTask
  rw [transmitMessage_nextId]

theorem submitTask_settledOf (s : SockState) (t : WsTask) (now : Int) :
    settledOf (submitTask s t now).2 = [] := by
  unfold submitTask
  rw [transmitMessage_settledOf]

theorem settledOf_emitOpen_cons (l : List Effect) :
    settledOf (Effect.emitOpen :: l) = settledOf l := rfl

theorem settledOf_append (e1 e2 : List Effect) :
    settledOf (e1 ++ e2) = settledOf e1 ++ settledOf e2 := by
  unfold settledOf
  exact List.filterMap_append ..

theorem settledOf_disconnect (s : SockState) : settledOf (disconnect s).2 = [] := by
  unfold disconnect
  cases s.socket <;> rfl

theorem handleError_pending (s : SockState) (e : Err) :
    (handleError s e).1.pending = s.pending := by
  unfold handleError disconnect
  dsimp only
  split <;> split <;> rfl

theorem handleError_nextId (s : SockState) (e : Err) :
    (handleError s e).1.nextId = s.nextId := by
  unfold handleError disconnect
  dsimp only
  split <;> split <;> rfl

theorem handleError_subs (s : SockState) (e : Err) :
    (handleError s e).1.subs = s.subs := by
  unfold handleError disconnect
  dsimp only
  split <;> split <;> rfl

theorem handleError_settledOf (s : SockState) (e : Err) :
    settledOf (handleError s e).2 = [] := by
  unfold handleError
  dsimp only
  split <;> split <;> first
    | exact settledOf_disconnect _
    | rfl

/-- Deferred-settling effects of a conditional rejection sweep (the shape shared
by the `onTimer` timeout sweep). -/
theorem settledOf_sweep (l : List (String × WsMessage))
    (q : String × WsMessage → Prop) [DecidablePred q] (θ : Nat → Bool) (err : Err) :
    settledOf (l.flatMap fun p =>
      if q p then
        Effect.taskReject p.2.task.tag err ::
          (if θ p.2.task.tag then [Effect.logErr] else [])
      else []) =
    (l.filter fun p => decide (q p)).map fun p => p.2.task.tag := by
  induction l with
  | nil => rfl
  | cons p rest ih =>
    rw [List.flatMap_cons, settledOf_append, ih, List.filter_cons]
    by_cases hq : q p
    · by_cases hθ : θ p.2.task.tag <;> simp [hq, hθ, settledOf]
    · simp [hq, settledOf]

/-- Deferred-settling effects of the unconditional rejection sweep of
`onSocketClose`. -/
theorem settledOf_rejectAll (l : List (String × WsMessage)) (θ : Nat → Bool)
    (err : Err) :
    settledOf (l.flatMap fun p =>
      Effect.taskReject p.2.task.tag err ::
        (if θ p.2.task.tag then [Effect.logErr] else [])) =
    l.map fun p => p.2.task.tag := by
  induction l with
  | nil => rfl
  | cons p rest ih =>
    rw [List.flatMap_cons, settledOf_append, ih]
    by_cases hθ : θ p.2.task.tag <;> simp [hθ, settledOf]

/-- Counts the rejection attempts aimed at one Deferred tag. -/
def rejectCount (effs : List Effect) (tag : Nat) : Nat :=
  (effs.filter fun e =>
    match e with
    | Effect.taskReject t _ => decide (t = tag)
    | _ => false).length

theorem rejectCount_append (e1 e2 : List Effect) (tag : Nat) :
    rejectCount (e1 ++ e2) tag = rejectCount e1 tag + rejectCount e2 tag := by
  simp [rejectCount, List.filter_append]

theorem rejectCount_logs (c : Bool) (tag : Nat) :
    rejectCount (if c then [Effect.logErr] else []) tag = 0 := by
  cases c <;> rfl

theorem rejectCount_cons_reject (t : Nat) (err : Err) (l : List Effect)
    (tag : Nat) :
    rejectCount (Effect.taskReject t err :: l) tag =
      (if t = tag then 1 else 0) + rejectCount l tag := by
  by_cases h : t = tag <;> simp [rejectCount, List.filter_cons, h] <;> omega

theorem rejectCount_rejectAll (l : List (String × WsMessage)) (θ : Nat → Bool)
    (err : Err) (tag : Nat) :
    rejectCount (l.flatMap fun p =>
      Effect.taskReject p.2.task.tag err ::
        (if θ p.2.task.tag then [Effect.logErr] else [])) tag =
    (l.map fun p => p.2.task.tag).count tag := by
  induction l with
  | nil => rfl
  | cons p rest ih =>
    rw [List.flatMap_cons, List.cons_append, rejectCount_cons_reject,
      rejectCount_append, rejectCount_logs, ih]
    by_cases ht : p.2.task.tag = tag <;> simp [List.count_cons, ht] <;> omega

/-- Full characterization of the `onSocketClose` sweep: Pending is emptied, and
for any Deferred tag the number of rejection attempts equals the number of
Pending entries carrying that tag, independently of which attempts throw. -/
theorem onSocketClose_spec (s : SockState) (θ : Nat → Bool) (emitThrows : Bool) :
    (onSocketClose s θ emitThrows).1.pending = [] ∧
    (onSocketClose s θ emitThrows).1.connected = false ∧
    (onSocketClose s θ emitThrows).1.socket = none ∧
    (onSocketClose s θ emitThrows).1.cancelConnect = false ∧
    (onSocketClose s θ emitThrows).1.error = s.error ∧
    (∀ tag, rejectCount (onSocketClose s θ emitThrows).2 tag =
      (tagsOf s).count tag) ∧
    settledOf (onSocketClose s θ emitThrows).2 = tagsOf s := by
  unfold onSocketClose
  refine ⟨rfl, rfl, rfl, rfl, rfl, ?_, ?_⟩
  · intro tag
    rw [rejectCount_append, rejectCount_append, rejectCount_rejectAll]
    have h1 : rejectCount [Effect.emitClose (s.error.getD Err.socketClose)] tag = 0 := rfl
    have h2 : rejectCount (if emitThrows then [Effect.logErr] else []) tag = 0 := by
      by_cases h : emitThrows <;> simp [h, rejectCount]
    rw [h1, h2]
    rfl
  · rw [settledOf_append, settledOf_append, settledOf_rejectAll]
    have h1 : settledOf [Effect.emitClose (s.error.getD Err.socketClose)] = [] := rfl
    have h2 : settledOf (if emitThrows then [Effect.logErr] else []) = [] := by
      by_cases h : emitThrows <;> simp [h, settledOf]
    rw [h1, h2]
    simp [tagsOf]

/-- Rejection counts of a conditional rejection sweep. -/
theorem rejectCount_sweep (l : List (String × WsMessage))
    (q : String × WsMessage → Prop) [DecidablePred q] (θ : Nat → Bool) (err : Err)
    (tag : Nat) :
    rejectCount (l.flatMap fun p =>
      if q p then
        Effect.taskReject p.2.task.tag err ::
          (if θ p.2.task.tag then [Effect.logErr] else [])
      else []) tag =
    ((l.filter fun p => decide (q p)).map fun p => p.2.task.tag).count tag := by
  induction l with
  | nil => rfl
  | cons p rest ih =>
    rw [List.flatMap_cons, rejectCount_append, ih, List.filter_cons]
    by_cases hq : q p
    · rw [if_pos hq, rejectCount_cons_reject, rejectCount_logs]
      by_cases ht : p.2.task.tag = tag <;> simp [hq, List.count_cons, ht] <;> omega
    · simp [hq, rejectCount]

theorem lookupAssoc_mem {α : Type} (l : List (String × α)) (k : String) (v : α)
    (h : lookupAssoc l k = some v) : (k, v) ∈ l := by
  induction l with
  | nil => simp [lookupAssoc] at h
  | cons p rest ih =>
    obtain ⟨k', v'⟩ := p
    by_cases hk : k' = k
    · rw [lookupAssoc, if_pos hk] at h
      subst hk
      rw [Option.some.inj h]
      exact List.mem_cons_self _ _
    · rw [lookupAssoc, if_neg hk] at h
      exact List.mem_cons_of_mem _ (ih h)

theorem tagsOf_eq_of_pending {s s' : SockState} (h : s'.pending = s.pending) :
    tagsOf s' = tagsOf s := by
  unfold tagsOf
  rw [h]

theorem keysOf_eq_of_pending {s s' : SockState} (h : s'.pending = s.pending) :
    keysOf s' = keysOf s := by
  unfold keysOf
  rw [h]

theorem subscribe_pending (s : SockState) (sub : WsSubscription) :
    (subscribe s sub).1.pending = s.pending := by
  unfold subscribe
  split <;> rfl

theorem subscribe_nextId (s : SockState) (sub : WsSubscription) :
    (subscribe s sub).1.nextId = s.nextId := by
  unfold subscribe
  split <;> rfl

theorem subscribe_settledOf (s : SockState) (sub : WsSubscription) :
    settledOf (subscribe s sub).2 = [] := by
  unfold subscribe
  split <;> rfl

theorem disconnectPublic_pending (s : SockState) :
    (disconnectPublic s).1.pending = s.pending := rfl

theorem disconnectPublic_nextId (s : SockState) :
    (disconnectPublic s).1.nextId = s.nextId := rfl

theorem disconnectPublic_settledOf (s : SockState) :
    settledOf (disconnectPublic s).2 = [] := by
  unfold disconnectPublic disconnect
  cases s.socket <;> rfl

/-- Characterization of the `onSocketConnect` step on the correlation
structure: retransmission refreshes `startTime`s but never changes ids, tags,
the counter, or any Deferred. -/
theorem onSocketConnect_sig (s : SockState) (now : Int) (emitErr : Option Err) :
    tagsOf (onSocketConnect s now emitErr).1 = tagsOf s ∧
    keysOf (onSocketConnect s now emitErr).1 = keysOf s ∧
    (onSocketConnect s now emitErr).1.nextId = s.nextId ∧
    settledOf (onSocketConnect s now emitErr).2 = [] := by
  unfold onSocketConnect
  by_cases hc : s.cancelConnect
  · rw [if_pos hc]
    refine ⟨rfl, rfl, rfl, ?_⟩
    cases s.socket <;> rfl
  · rw [if_neg hc]
    dsimp only
    cases emitErr with
    | none =>
      obtain ⟨h1, h2, h3, h4⟩ := retransmitAll_sig now
        (({ s with connected := true, lastKeepAlive := now } : SockState).pending.map
          Prod.fst) { s with connected := true, lastKeepAlive := now }
      refine ⟨?_, ?_, ?_, ?_⟩
      · exact h1
      · exact h2
      · exact h3
      · rw [settledOf_append, settledOf_append, h4]
        rfl
    | some e =>
      have hpend := handleError_pending { s with connected := true, lastKeepAlive := now } e
      have hnext := handleError_nextId { s with connected := true, lastKeepAlive := now } e
      have hset := handleError_settledOf { s with connected := true, lastKeepAlive := now } e
      obtain ⟨h1, h2, h3, h4⟩ := retransmitAll_sig now
        ((handleError { s with connected := true, lastKeepAlive := now } e).1.pending.map
          Prod.fst) (handleError { s with connected := true, lastKeepAlive := now } e).1
      refine ⟨?_, ?_, ?_, ?_⟩
      · exact h1.trans (tagsOf_eq_of_pending hpend)
      · exact h2.trans (keysOf_eq_of_pending hpend)
      · exact h3.trans hnext
      · rw [settledOf_append, settledOf_append, h4, settledOf_emitOpen_cons, hset]
        rfl

/-- Case analysis of `onMessage` on the correlation structure: either Pending
and every Deferred of a pending task are untouched, or exactly one entry (a
correlation hit) is removed and its Deferred settled. -/
theorem onMessage_shape (s : SockState) (inb : Inbound) :
    ((onMessage s inb).1.pending = s.pending ∧
      (onMessage s inb).1.nextId = s.nextId ∧
      settledOf (onMessage s inb).2 = []) ∨
    (∃ id m, lookupAssoc s.pending id = some m ∧
      (onMessage s inb).1.pending = removeAssoc s.pending id ∧
      (onMessage s inb).1.nextId = s.nextId ∧
      settledOf (onMessage s inb).2 = [m.task.tag]) := by
  have hsubr : ∀ (b : Bool) (id : String),
      settledOf (if b then [] else [Effect.subReject id]) = [] := by
    intro b id; cases b <;> rfl
  cases inb with
  | malformed e =>
    left
    refine ⟨?_, ?_, ?_⟩
    · simpa [onMessage] using handleError_pending s e
    · simpa [onMessage] using handleError_nextId s e
    · show settledOf ((handleError s e).2 ++ [Effect.scheduleWakeUp]) = []
      rw [settledOf_append, handleError_settledOf]
      rfl
  | noId => left; exact ⟨rfl, rfl, rfl⟩
  | frame id marker data srvErr =>
    cases hsub : lookupAssoc s.subs id with
    | some sub =>
      by_cases hm : marker
      · left
        refine ⟨?_, ?_, ?_⟩ <;> simp only [onMessage, hsub, hm, if_true] <;> rfl
      · cases hcl : sub.cleaner data with
        | error e =>
          left
          refine ⟨?_, ?_, ?_⟩
          · simpa only [onMessage, hsub, hm, if_false, hcl]
              using handleError_pending s e
          · simpa only [onMessage, hsub, hm, if_false, hcl]
              using handleError_nextId s e
          · simp only [onMessage, hsub, hm, Bool.false_eq_true, if_false, hcl]
            rw [settledOf_append, settledOf_append, settledOf_append,
              hsubr sub.subscribed id, handleError_settledOf]
            rfl
        | ok v =>
          cases hcb : sub.cbThrows v with
          | some e =>
            left
            refine ⟨?_, ?_, ?_⟩
            · simpa only [onMessage, hsub, hm, if_false, hcl, hcb]
                using handleError_pending s e
            · simpa only [onMessage, hsub, hm, if_false, hcl, hcb]
                using handleError_nextId s e
            · simp only [onMessage, hsub, hm, Bool.false_eq_true, if_false, hcl, hcb]
              rw [settledOf_append, settledOf_append, settledOf_append,
                hsubr sub.subscribed id, handleError_settledOf]
              rfl
          | none =>
            left
            refine ⟨?_, ?_, ?_⟩
            · simp only [onMessage, hsub, hm, if_false, hcl, hcb]
              rfl
            · simp only [onMessage, hsub, hm, if_false, hcl, hcb]
              rfl
            · simp only [onMessage, hsub, hm, Bool.false_eq_true, if_false, hcl, hcb]
              rw [settledOf_append, hsubr sub.subscribed id]
              rfl
    | none =>
      cases hpend : lookupAssoc s.pending id with
      | none =>
        left
        refine ⟨?_, ?_, ?_⟩
        · simpa only [onMessage, hsub, hpend]
            using handleError_pending s Err.badResponseId
        · simpa only [onMessage, hsub, hpend]
            using handleError_nextId s Err.badResponseId
        · simp only [onMessage, hsub, hpend]
          rw [settledOf_append, handleError_settledOf]
          rfl
      | some m =>
        right
        refine ⟨id, m, hpend, ?_, ?_, ?_⟩ <;>
          simp only [onMessage, hsub, hpend] <;>
          cases srvErr <;>
          first
            | rfl
            | (cases hclean : m.task.cleaner with
               | none => rfl
               | some c =>
                 dsimp only
                 cases hc : c data <;> rfl)

/-- Characterization of the `onTimer` sweep. -/
theorem onTimer_spec (cfg : Config) (s : SockState) (dateNow : Int) (θ : Nat → Bool) :
    (onTimer cfg s dateNow θ).1.pending =
      s.pending.filter (fun p =>
        decide ¬(p.2.startTime + cfg.timeoutMs < dateNow - TIMER_SLACK)) ∧
    (onTimer cfg s dateNow θ).1.nextId = s.nextId ∧
    settledOf (onTimer cfg s dateNow θ).2 =
      (s.pending.filter fun p =>
        decide (p.2.startTime + cfg.timeoutMs < dateNow - TIMER_SLACK)).map
        (fun p => p.2.task.tag) ∧
    (∀ tag, rejectCount (onTimer cfg s dateNow θ).2 tag =
      ((s.pending.filter fun p =>
        decide (p.2.startTime + cfg.timeoutMs < dateNow - TIMER_SLACK)).map
        (fun p => p.2.task.tag)).count tag) := by
  unfold onTimer
  have hka : ∀ r1 : SockState × List Effect,
      (r1 = ({ s with lastKeepAlive := dateNow - TIMER_SLACK }, [Effect.healthCheck]) ∨
       r1 = (s, [])) → r1.1.pending = s.pending ∧ r1.1.nextId = s.nextId ∧
        settledOf r1.2 = [] ∧ (∀ tag, rejectCount r1.2 tag = 0) := by
    rintro r1 (rfl | rfl) <;> exact ⟨rfl, rfl, rfl, fun _ => rfl⟩
  obtain ⟨h1, h2, h3, h4⟩ := hka
    (if s.lastKeepAlive + KEEP_ALIVE_MS < dateNow - TIMER_SLACK then
      ({ s with lastKeepAlive := dateNow - TIMER_SLACK }, [Effect.healthCheck])
     else (s, []))
    (by split <;> simp)
  refine ⟨?_, ?_, ?_, ?_⟩
  · simp only [h1]
  · simp only [h2]
  · rw [settledOf_append, settledOf_append, h3, List.nil_append, h1,
      settledOf_sweep]
    simp [settledOf]
  · intro tag
    rw [rejectCount_append, rejectCount_append, h4, Nat.zero_add, h1]
    have h5 : rejectCount [Effect.scheduleWakeUp] tag = 0 := rfl
    rw [h5, Nat.add_zero]
    have := rejectCount_sweep s.pending
      (fun p => p.2.startTime + cfg.timeoutMs < dateNow - TIMER_SLACK) θ
      Err.timeout tag
    exact this

theorem inv_of_eq (s s' : SockState) (settled : List Nat)
    (htags : tagsOf s' = tagsOf s) (hkeys : keysOf s' = keysOf s)
    (hnext : s'.nextId = s.nextId) (hInv : Inv ⟨s, settled⟩) :
    Inv ⟨s', settled⟩ := by
  obtain ⟨i1, i2, i3, i4⟩ := hInv
  refine ⟨fun tag ht => i1 tag (htags ▸ ht), htags.symm ▸ i2, hkeys.symm ▸ i3,
    fun key hk => ?_⟩
  obtain ⟨k, hlt, he⟩ := i4 key (hkeys ▸ hk)
  exact ⟨k, hnext.symm ▸ hlt, he⟩

theorem submit_inv (s : SockState) (settled : List Nat) (t : WsTask) (now : Int)
    (hInv : Inv ⟨s, settled⟩) (h1 : t.tag ∉ settled) (h2 : t.tag ∉ tagsOf s) :
    Inv ⟨(submitTask s t now).1, settled⟩ := by
  obtain ⟨i1, i2, i3, i4⟩ := hInv
  dsimp only at i1 i2 i3 i4
  refine ⟨?_, ?_, ?_, ?_⟩
  · intro tag htag
    rw [submitTask_tagsOf] at htag
    rcases List.mem_append.mp htag with h | h
    · exact i1 tag h
    · rw [List.mem_singleton.mp h]
      exact h1
  · rw [submitTask_tagsOf]
    exact List.nodup_append.mpr ⟨i2, List.nodup_singleton _,
      List.disjoint_singleton.mpr h2⟩
  · rw [submitTask_keysOf]
    refine List.nodup_append.mpr ⟨i3, List.nodup_singleton _,
      List.disjoint_singleton.mpr ?_⟩
    intro hmem
    obtain ⟨k, hk, hkey⟩ := i4 _ hmem
    exact absurd (natRepr_injective hkey) (by omega)
  · rw [submitTask_keysOf, submitTask_nextId]
    intro key hkey
    rcases List.mem_append.mp hkey with h | h
    · obtain ⟨k, hk, he⟩ := i4 key h
      exact ⟨k, by omega, he⟩
    · exact ⟨s.nextId, by omega, List.mem_singleton.mp h⟩

theorem doWakeUpLoop_inv (cfg : Config) (now : Int) :
    ∀ (pulls : List PullResult) (s : SockState) (settled : List Nat),
      Inv ⟨s, settled⟩ →
      (∀ t ∈ tasksOfPulls pulls, t.tag ∉ settled ∧ t.tag ∉ tagsOf s) →
      ((tasksOfPulls pulls).map WsTask.tag).Nodup →
      Inv ⟨(doWakeUpLoop cfg s now pulls).1, settled⟩ ∧
      settledOf (doWakeUpLoop cfg s now pulls).2 = [] := by
  intro pulls
  induction pulls with
  | nil => intro s settled hInv _ _; exact ⟨hInv, rfl⟩
  | cons p rest ih =>
    intro s settled hInv hfresh hnd
    simp only [doWakeUpLoop]
    by_cases hroom : s.pending.length < cfg.queueSize
    · rw [if_pos hroom]
      cases p with
      | skip => exact ⟨hInv, rfl⟩
      | bool b =>
        cases b with
        | true =>
          have hrec := ih s settled hInv (fun t ht => hfresh t ht) hnd
          exact ⟨hrec.1, by
            show settledOf (Effect.pullInvoked s.pending.length ::
              (doWakeUpLoop cfg s now rest).2) = []
            rw [show ∀ l, settledOf (Effect.pullInvoked s.pending.length :: l) =
              settledOf l from fun _ => rfl]
            exact hrec.2⟩
        | false => exact ⟨hInv, rfl⟩
      | task t =>
        have hf := hfresh t (List.mem_cons_self _ _)
        have hInv' := submit_inv s settled t now hInv hf.1 hf.2
        have hnotin : t.tag ∉ (tasksOfPulls rest).map WsTask.tag :=
          (List.nodup_cons.mp hnd).1
        have hfresh' : ∀ t' ∈ tasksOfPulls rest,
            t'.tag ∉ settled ∧ t'.tag ∉ tagsOf (submitTask s t now).1 := by
          intro t' ht'
          have h0 := hfresh t' (List.mem_cons_of_mem _ ht')
          refine ⟨h0.1, ?_⟩
          rw [submitTask_tagsOf]
          intro hmem
          rcases List.mem_append.mp hmem with h | h
          · exact h0.2 h
          · exact hnotin ((List.mem_singleton.mp h) ▸
              List.mem_map_of_mem WsTask.tag ht')
        have hrec := ih (submitTask s t now).1 settled hInv' hfresh'
          (List.nodup_cons.mp hnd).2
        refine ⟨hrec.1, ?_⟩
        show settledOf (Effect.pullInvoked s.pending.length ::
          ((submitTask s t now).2 ++
            (doWakeUpLoop cfg (submitTask s t now).1 now rest).2)) = []
        rw [show ∀ l, settledOf (Effect.pullInvoked s.pending.length :: l) =
          settledOf l from fun _ => rfl, settledOf_append, submitTask_settledOf,
          hrec.2]
        rfl
    · rw [if_neg hroom]
      exact ⟨hInv, rfl⟩

theorem inv_step (cfg : Config) (w w' : World) (h : Step cfg w w')
    (hInv : Inv w) : Inv w' := by
  obtain ⟨i1, i2, i3, i4⟩ := hInv
  cases h with
  | submit t now hfresh =>
    unfold applyOp
    rw [submitTask_settledOf, List.append_nil]
    exact submit_inv w.s w.settled t now ⟨i1, i2, i3, i4⟩ hfresh.1 hfresh.2
  | timer dateNow θ =>
    obtain ⟨hp, hn, hset, _⟩ := onTimer_spec cfg w.s dateNow θ
    unfold applyOp
    rw [hset]
    have hlivetags : tagsOf (onTimer cfg w.s dateNow θ).1 =
        (w.s.pending.filter fun p =>
          decide ¬(p.2.startTime + cfg.timeoutMs < dateNow - TIMER_SLACK)).map
          fun p => p.2.task.tag := by
      unfold tagsOf
      rw [hp]
    have hlivekeys : keysOf (onTimer cfg w.s dateNow θ).1 =
        (w.s.pending.filter fun p =>
          decide ¬(p.2.startTime + cfg.timeoutMs < dateNow - TIMER_SLACK)).map
          Prod.fst := by
      unfold keysOf
      rw [hp]
    have hsubt : List.Sublist (w.s.pending.filter fun p =>
        decide ¬(p.2.startTime + cfg.timeoutMs < dateNow - TIMER_SLACK))
        w.s.pending := List.filter_sublist _
    have hperm := List.filter_append_perm
      (fun p => decide (p.2.startTime + cfg.timeoutMs < dateNow - TIMER_SLACK))
      w.s.pending
    have hfeq : (w.s.pending.filter fun p =>
        !decide (p.2.startTime + cfg.timeoutMs < dateNow - TIMER_SLACK)) =
        (w.s.pending.filter fun p =>
          decide ¬(p.2.startTime + cfg.timeoutMs < dateNow - TIMER_SLACK)) := by
      apply List.filter_congr
      intro p _
      rw [decide_not]
    have hmapnd : ((w.s.pending.filter fun p =>
        decide (p.2.startTime + cfg.timeoutMs < dateNow - TIMER_SLACK)).map
          (fun p => p.2.task.tag) ++
        (w.s.pending.filter fun p =>
          decide ¬(p.2.startTime + cfg.timeoutMs < dateNow - TIMER_SLACK)).map
          (fun p => p.2.task.tag)).Nodup := by
      have i2' : (w.s.pending.map fun p => p.2.task.tag).Nodup := i2
      have h0 := ((hperm.map fun p => p.2.task.tag).symm).nodup i2'
      rw [List.map_append, hfeq] at h0
      exact h0
    have hdisj := List.disjoint_of_nodup_append hmapnd
    refine ⟨?_, ?_, ?_, ?_⟩
    · intro tag htag hcontra
      rw [hlivetags] at htag
      rcases List.mem_append.mp hcontra with hA | hB
      · obtain ⟨p, hpmem, rfl⟩ := List.mem_map.mp htag
        exact i1 _ (List.mem_map_of_mem _ (List.mem_of_mem_filter hpmem)) hA
      · exact hdisj hB htag
    · rw [hlivetags]
      exact i2.sublist (List.Sublist.map _ hsubt)
    · rw [hlivekeys]
      exact i3.sublist (List.Sublist.map _ hsubt)
    · intro key hkey
      rw [hlivekeys] at hkey
      obtain ⟨p, hpmem, rfl⟩ := List.mem_map.mp hkey
      obtain ⟨k, hk, he⟩ :=
        i4 _ (List.mem_map_of_mem _ (List.mem_of_mem_filter hpmem))
      exact ⟨k, hn ▸ hk, he⟩
  | message inb =>
    rcases onMessage_shape w.s inb with ⟨hp, hn, hset⟩ | ⟨id, m, hlook, hp, hn, hset⟩
    · unfold applyOp
      rw [hset, List.append_nil]
      exact inv_of_eq w.s _ w.settled (tagsOf_eq_of_pending hp)
        (keysOf_eq_of_pending hp) hn ⟨i1, i2, i3, i4⟩
    · unfold applyOp
      rw [hset]
      have hpm : (id, m) ∈ w.s.pending := lookupAssoc_mem _ _ _ hlook
      have hsubt : List.Sublist (removeAssoc w.s.pending id) w.s.pending :=
        List.filter_sublist _
      have htags : tagsOf (onMessage w.s inb).1 =
          (removeAssoc w.s.pending id).map fun p => p.2.task.tag := by
        unfold tagsOf
        rw [hp]
      have hkeys : keysOf (onMessage w.s inb).1 =
          (removeAssoc w.s.pending id).map Prod.fst := by
        unfold keysOf
        rw [hp]
      refine ⟨?_, ?_, ?_, ?_⟩
      · intro tag htag hcontra
        rw [htags] at htag
        obtain ⟨p, hpmem, rfl⟩ := List.mem_map.mp htag
        have hpmem' : p ∈ w.s.pending := List.mem_of_mem_filter hpmem
        rcases List.mem_append.mp hcontra with hA | hB
        · exact i1 _ (List.mem_map_of_mem _ hpmem') hA
        · have htageq : p.2.task.tag = m.task.tag := List.mem_singleton.mp hB
          have hpeq : p = (id, m) :=
            List.inj_on_of_nodup_map i2 hpmem' hpm htageq
          have : p.1 ≠ id := by
            have hmem2 := List.mem_filter.mp hpmem
            simpa [removeAssoc] using hmem2.2
          exact this (by rw [hpeq])
      · rw [htags]
        exact i2.sublist (List.Sublist.map _ hsubt)
      · rw [hkeys]
        exact i3.sublist (List.Sublist.map _ hsubt)
      · intro key hkey
        rw [hkeys] at hkey
        obtain ⟨p, hpmem, rfl⟩ := List.mem_map.mp hkey
        obtain ⟨k, hk, he⟩ :=
          i4 _ (List.mem_map_of_mem _ (List.mem_of_mem_filter hpmem))
        exact ⟨k, hn ▸ hk, he⟩
  | close θ emitThrows =>
    obtain ⟨hp, _, _, _, _, _, _⟩ := onSocketClose_spec w.s θ emitThrows
    unfold applyOp
    have htags : tagsOf (onSocketClose w.s θ emitThrows).1 = [] := by
      unfold tagsOf
      rw [hp]
      rfl
    have hkeys : keysOf (onSocketClose w.s θ emitThrows).1 = [] := by
      unfold keysOf
      rw [hp]
      rfl
    refine ⟨?_, htags ▸ List.nodup_nil, hkeys ▸ List.nodup_nil, ?_⟩
    · intro tag ht
      exact absurd (htags ▸ ht) (List.not_mem_nil tag)
    · intro key hk
      exact absurd (hkeys ▸ hk) (List.not_mem_nil key)
  | sockConnect now emitErr =>
    obtain ⟨h1, h2, h3, h4⟩ := onSocketConnect_sig w.s now emitErr
    unfold applyOp
    rw [h4, List.append_nil]
    exact inv_of_eq w.s _ w.settled h1 h2 h3 ⟨i1, i2, i3, i4⟩
  | wake now pulls hfresh =>
    unfold applyOp doWakeUp
    dsimp only
    by_cases hconn : w.s.connected = true
    · rw [if_pos hconn]
      have hInv1 : Inv ⟨{ w.s with lastWakeUp := now }, w.settled⟩ :=
        inv_of_eq w.s _ w.settled rfl rfl rfl ⟨i1, i2, i3, i4⟩
      have hloop := doWakeUpLoop_inv cfg now pulls
        { w.s with lastWakeUp := now } w.settled hInv1
        (fun t ht => (hfresh.1 t ht)) hfresh.2
      rw [hloop.2, List.append_nil]
      exact hloop.1
    · rw [if_neg hconn]
      dsimp only
      rw [show settledOf ([] : List Effect) = [] from rfl, List.append_nil]
      exact inv_of_eq w.s _ w.settled rfl rfl rfl ⟨i1, i2, i3, i4⟩
  | subscribeStep sub =>
    unfold applyOp
    rw [subscribe_settledOf, List.append_nil]
    exact inv_of_eq w.s _ w.settled (tagsOf_eq_of_pending (subscribe_pending _ _))
      (keysOf_eq_of_pending (subscribe_pending _ _)) (subscribe_nextId _ _)
      ⟨i1, i2, i3, i4⟩
  | errorStep e =>
    unfold applyOp
    rw [handleError_settledOf, List.append_nil]
    exact inv_of_eq w.s _ w.settled (tagsOf_eq_of_pending (handleError_pending _ _))
      (keysOf_eq_of_pending (handleError_pending _ _)) (handleError_nextId _ _)
      ⟨i1, i2, i3, i4⟩
  | transportError event =>
    exact inv_of_eq w.s _ w.settled rfl rfl rfl ⟨i1, i2, i3, i4⟩
  | disconnectStep =>
    unfold applyOp
    rw [disconnectPublic_settledOf, List.append_nil]
    exact inv_of_eq w.s _ w.settled
      (tagsOf_eq_of_pending (disconnectPublic_pending _))
      (keysOf_eq_of_pending (disconnectPublic_pending _))
      (disconnectPublic_nextId _) ⟨i1, i2, i3, i4⟩

theorem inv_reach (cfg : Config) (w : World) (h : Reach cfg w) : Inv w := by
  induction h with
  | refl => exact inv_initWorld
  | tail hab hbc ih => exact inv_step cfg _ _ hbc ih

/-! ### Further characterization lemmas used by the claim theorems. -/

theorem handleError_error (s : SockState) (e : Err) :
    (handleError s e).1.error = some (s.error.getD e) := by
  unfold handleError disconnect
  dsimp only
  cases he : s.error <;> split <;> (try split) <;> simp_all

theorem handleError_open (s : SockState) (e : Err)
    (h : s.connected = true ∧ s.socket = some ReadyState.OPEN) :
    (handleError s e).1.connected = false ∧
    Effect.transportDisconnect ∈ (handleError s e).2 ∧
    Effect.removeFromQueue ∈ (handleError s e).2 := by
  unfold handleError disconnect
  dsimp only
  have hcond : (if s.error = none then { s with error := some e } else s).connected
        = true ∧
      (if s.error = none then { s with error := some e } else s).socket
        = some ReadyState.OPEN := by
    cases he : s.error <;> simp [he, h.1, h.2]
  rw [if_pos hcond]
  refine ⟨rfl, ?_, ?_⟩
  · rw [hcond.2]
    exact List.mem_append_left _ (List.mem_cons_self _ _)
  · exact List.mem_append_right _ (List.mem_cons_self _ _)

theorem handleError_notOpen (s : SockState) (e : Err)
    (h : ¬(s.connected = true ∧ s.socket = some ReadyState.OPEN)) :
    (handleError s e).1.cancelConnect = true := by
  unfold handleError disconnect
  dsimp only
  have hcond : ¬((if s.error = none then { s with error := some e } else s).connected
        = true ∧
      (if s.error = none then { s with error := some e } else s).socket
        = some ReadyState.OPEN) := by
    cases he : s.error <;> simpa [he] using h
  rw [if_neg hcond]

theorem not_settling_of_settledOf_nil (l : List Effect) (h : settledOf l = []) :
    (∀ tag v, Effect.taskResolve tag v ∉ l) ∧
    (∀ tag e, Effect.taskReject tag e ∉ l) := by
  constructor <;> intro tag x hmem <;>
    exact absurd (h ▸ List.mem_filterMap.mpr ⟨_, hmem, rfl⟩)
      (List.not_mem_nil tag)

theorem onSocketClose_reject_mem (s : SockState) (θ : Nat → Bool)
    (emitThrows : Bool) (p : String × WsMessage) (hmem : p ∈ s.pending) :
    Effect.taskReject p.2.task.tag (s.error.getD Err.socketClose) ∈
      (onSocketClose s θ emitThrows).2 := by
  unfold onSocketClose
  dsimp only
  exact List.mem_append_left _ (List.mem_append_left _
    (List.mem_flatMap.mpr ⟨p, hmem, List.mem_cons_self _ _⟩))

theorem onTimer_reject_mem (cfg : Config) (s : SockState) (dateNow : Int)
    (θ : Nat → Bool) (p : String × WsMessage) (hmem : p ∈ s.pending)
    (hexp : p.2.startTime + cfg.timeoutMs < dateNow - TIMER_SLACK) :
    Effect.taskReject p.2.task.tag Err.timeout ∈ (onTimer cfg s dateNow θ).2 := by
  unfold onTimer
  dsimp only
  apply List.mem_append_left
  apply List.mem_append_right
  have hpend : (if s.lastKeepAlive + KEEP_ALIVE_MS < dateNow - TIMER_SLACK then
      ({ s with lastKeepAlive := dateNow - TIMER_SLACK }, [Effect.healthCheck])
    else (s, [])).1.pending = s.pending := by
    split <;> rfl
  rw [hpend]
  exact List.mem_flatMap.mpr ⟨p, hmem, by
    rw [if_pos hexp]
    exact List.mem_cons_self _ _⟩

theorem lookupAssoc_insertAssoc {α : Type} (l : List (String × α)) (k : String)
    (v : α) : lookupAssoc (insertAssoc l k v) k = some v := by
  induction l with
  | nil => simp [insertAssoc, lookupAssoc]
  | cons p rest ih =>
    obtain ⟨k', v'⟩ := p
    by_cases hk : k' = k
    · rw [insertAssoc, if_pos hk, lookupAssoc, if_pos hk]
    · rw [insertAssoc, if_neg hk, lookupAssoc, if_neg hk]
      exact ih

theorem lookupAssoc_map_refresh (l : List (String × WsMessage)) (id : String)
    (now : Int) :
    lookupAssoc (l.map fun p =>
      if p.1 = id then (p.1, { p.2 with startTime := now }) else p) id =
    (lookupAssoc l id).map fun m => { m with startTime := now } := by
  induction l with
  | nil => rfl
  | cons p rest ih =>
    obtain ⟨k, v⟩ := p
    rw [List.map_cons]
    dsimp only
    by_cases hk : k = id
    · subst hk
      rw [if_pos rfl, lookupAssoc, if_pos rfl]
      conv_rhs => rw [lookupAssoc]
      rw [if_pos rfl]
      rfl
    · rw [if_neg hk, lookupAssoc, if_neg hk]
      conv_rhs => rw [lookupAssoc]
      rw [if_neg hk]
      exact ih

theorem submitTask_pending_length (s : SockState) (t : WsTask) (now : Int) :
    (submitTask s t now).1.pending.length = s.pending.length + 1 := by
  have h := submitTask_keysOf s t now
  unfold keysOf at h
  have := congrArg List.length h
  simpa using this

theorem pullInvoked_not_in_submit (s : SockState) (t : WsTask) (now : Int)
    (n : Nat) : Effect.pullInvoked n ∉ (submitTask s t now).2 := by
  unfold submitTask transmitMessage
  dsimp only
  split <;> simp

theorem doWakeUpLoop_length_le (cfg : Config) (now : Int) :
    ∀ (pulls : List PullResult) (s : SockState),
      (doWakeUpLoop cfg s now pulls).1.pending.length ≤
        max s.pending.length cfg.queueSize := by
  intro pulls
  induction pulls with
  | nil => intro s; exact Nat.le_max_left _ _
  | cons p rest ih =>
    intro s
    simp only [doWakeUpLoop]
    by_cases hroom : s.pending.length < cfg.queueSize
    · rw [if_pos hroom]
      cases p with
      | skip => exact Nat.le_max_left _ _
      | bool b =>
        cases b with
        | true => exact ih s
        | false => exact Nat.le_max_left _ _
      | task t =>
        have h1 := ih (submitTask s t now).1
        have h2 := submitTask_pending_length s t now
        dsimp only
        omega
    · rw [if_neg hroom]
      exact Nat.le_max_left _ _

theorem doWakeUpLoop_pull_sizes (cfg : Config) (now : Int) :
    ∀ (pulls : List PullResult) (s : SockState) (n : Nat),
      Effect.pullInvoked n ∈ (doWakeUpLoop cfg s now pulls).2 →
      n < cfg.queueSize := by
  intro pulls
  induction pulls with
  | nil => intro s n h; exact absurd h (List.not_mem_nil _)
  | cons p rest ih =>
    intro s n h
    rw [doWakeUpLoop] at h
    by_cases hroom : s.pending.length < cfg.queueSize
    · rw [if_pos hroom] at h
      cases p with
      | skip =>
        have := List.mem_singleton.mp h
        rw [Effect.pullInvoked.injEq] at this
        omega
      | bool b =>
        cases b with
        | true =>
          rcases List.mem_cons.mp h with h0 | h0
          · injection h0 with h0
            omega
          · exact ih s n h0
        | false =>
          have := List.mem_singleton.mp h
          rw [Effect.pullInvoked.injEq] at this
          omega
      | task t =>
        rcases List.mem_cons.mp h with h0 | h0
        · injection h0 with h0
          omega
        · rcases List.mem_append.mp h0 with h1 | h1
          · exact absurd h1 (pullInvoked_not_in_submit _ _ _ _)
          · exact ih _ n h1
    · rw [if_neg hroom] at h
      exact absurd h (List.not_mem_nil _)

/-! ### Concrete fixtures for witnesses and counterexamples. -/

/-- The defaulted configuration: queue size 50, timeout 30 000 ms. -/
def cfg0 : Config := { queueSize := resolveQueueSize none,
                       timeoutMs := resolveTimeout none }

def t0 : WsTask := { method := "m", params := none, tag := 0, cleaner := none }

def sub0 : WsSubscription :=
  { method := "m", params := none, subscribed := false,
    cleaner := fun d => Except.ok (d.getD 0), cbThrows := fun _ => none }

/-- A closure state holding one live (unacknowledged) subscription on "m". -/
def subbedState : SockState := { initState with subs := [("m", sub0)] }

/-- A closure state whose transport is open and connected. -/
def openState : SockState :=
  { initState with socket := some ReadyState.OPEN, connected := true }

/-- The world after one `submitTask` on a fresh socket. -/
def c1World : World := applyOp initWorld (submitTask initWorld.s t0 0)

def m7 : WsMessage :=
  { task := { method := "q", params := none, tag := 7, cleaner := none },
    startTime := 0 }

def m8 : WsMessage :=
  { task := { method := "r", params := none, tag := 8, cleaner := none },
    startTime := 100000 }

/-- A closure state with one long-expired and one fresh Pending entry. -/
def timerState : SockState := { initState with pending := [("0", m7), ("1", m8)] }

/-- A closure state whose memo already holds an error. -/
def errState : SockState := { initState with error := some (Err.external 1) }

/-! ### Claim theorems. -/

/-- C1: when the transport reports closed, every entry still in the Pending set
has its task's Deferred rejected exactly once with the memoized error (or a
generic 'Socket close' error if none was recorded); a throw while rejecting one
entry (oracle `θ`) does not prevent rejecting the rest; afterwards Pending is
empty; and a task settled before the close (a tag in the ghost settled set,
which by the invariant is disjoint from Pending) receives no rejection. -/
theorem c1_close_rejects_all_pending (cfg : Config) (w : World) (θ : Nat → Bool)
    (emitThrows : Bool) (hw : Reach cfg w) :
    (onSocketClose w.s θ emitThrows).1.pending = [] ∧
    (∀ p ∈ w.s.pending,
      rejectCount (onSocketClose w.s θ emitThrows).2 p.2.task.tag = 1 ∧
      Effect.taskReject p.2.task.tag (w.s.error.getD Err.socketClose) ∈
        (onSocketClose w.s θ emitThrows).2) ∧
    (∀ tag ∈ w.settled, rejectCount (onSocketClose w.s θ emitThrows).2 tag = 0) := by
  obtain ⟨i1, i2, i3, i4⟩ := inv_reach cfg w hw
  obtain ⟨hp, _, _, _, _, hcount, _⟩ := onSocketClose_spec w.s θ emitThrows
  refine ⟨hp, ?_, ?_⟩
  · intro p hmem
    refine ⟨?_, onSocketClose_reject_mem w.s θ emitThrows p hmem⟩
    rw [hcount]
    exact List.count_eq_one_of_mem i2 (List.mem_map_of_mem _ hmem)
  · intro tag htag
    rw [hcount]
    exact List.count_eq_zero_of_not_mem fun hmem2 => i1 tag hmem2 htag

theorem c1_witness :
    (onSocketClose c1World.s (fun _ => true) false).1.pending = [] ∧
    rejectCount (onSocketClose c1World.s (fun _ => true) false).2 0 = 1 ∧
    Effect.taskReject 0 Err.socketClose ∈
      (onSocketClose c1World.s (fun _ => true) false).2 := by
  have hr : Reach cfg0 c1World :=
    Relation.ReflTransGen.single
      (Step.submit initWorld t0 0 ⟨List.not_mem_nil _, List.not_mem_nil _⟩)
  have h := c1_close_rejects_all_pending cfg0 c1World (fun _ => true) false hr
  have h2 := h.2.1 ("0", { task := t0, startTime := 0 })
    (List.mem_singleton.mpr rfl)
  exact ⟨h.1, h2.1, h2.2⟩

/-- C2 (counterexample): on an inbound update for an unacknowledged
subscription, `onMessage` rejects the subscription's Deferred AND still
delivers the validated payload to the user callback (there is no early return
after the reject), so the callback runs without the Deferred ever resolving —
refuting "does not deliver a payload to the callback". -/
theorem c2_counterexample :
    sub0.subscribed = false ∧
    onMessage subbedState (Inbound.frame "m" false (some 7) none) =
      (subbedState, [Effect.subReject "m", Effect.userCb "m" 7]) :=
  ⟨rfl, rfl⟩

/-- C2 (amended): an acknowledgment frame resolves the Deferred and marks the
subscription acknowledged without invoking the callback; but a streaming update
arriving while the subscription is unacknowledged rejects the Deferred and
STILL passes the payload through the validator and delivers it to the user
callback, so the callback can be invoked before (indeed, without) the Deferred
having resolved. -/
theorem c2_unacked_update_rejects_and_delivers (s : SockState) (id : String)
    (sub : WsSubscription) (data : Option Nat) (v : Nat)
    (hsub : lookupAssoc s.subs id = some sub) (hunack : sub.subscribed = false)
    (hcl : sub.cleaner data = Except.ok v) (hcb : sub.cbThrows v = none) :
    onMessage s (Inbound.frame id false data none) =
      (s, [Effect.subReject id, Effect.userCb id v]) ∧
    (∀ d, Effect.subResolve id d ∉
      (onMessage s (Inbound.frame id false data none)).2) ∧
    onMessage s (Inbound.frame id true data none) =
      ({ s with subs := insertAssoc s.subs id { sub with subscribed := true } },
       [Effect.subResolve id data]) := by
  have hred : onMessage s (Inbound.frame id false data none) =
      (s, [Effect.subReject id, Effect.userCb id v]) := by
    simp only [onMessage, hsub, hunack, hcl, hcb]
    simp
  have hack : onMessage s (Inbound.frame id true data none) =
      ({ s with subs := insertAssoc s.subs id { sub with subscribed := true } },
       [Effect.subResolve id data]) := by
    simp only [onMessage, hsub]
    simp
  refine ⟨hred, ?_, hack⟩
  intro d
  rw [hred]
  simp

theorem c2_witness :
    lookupAssoc subbedState.subs "m" = some sub0 ∧
    sub0.subscribed = false ∧
    onMessage subbedState (Inbound.frame "m" false (some 7) none) =
      (subbedState, [Effect.subReject "m", Effect.userCb "m" 7]) := by
  have h := c2_unacked_update_rejects_and_delivers subbedState "m" sub0 (some 7)
    7 rfl rfl rfl rfl
  exact ⟨rfl, rfl, h.1⟩

/-- C3 (counterexample): on a socket with no transport, `subscribe` is a
complete no-op — the subscription is NOT recorded in the Subscriptions map —
refuting "regardless of connection state, the subscription is recorded". -/
theorem c3_counterexample :
    initState.socket = none ∧
    subscribe initState sub0 = (initState, []) ∧
    lookupAssoc (subscribe initState sub0).1.subs "m" = none :=
  ⟨rfl, rfl, rfl⟩

/-- C3 (amended): `subscribe` records the subscription (keyed by its method
name, an existing entry being replaced) and sends the subscription message only
when the transport exists, reports open, and the connected flag is set;
otherwise the call is a complete no-op, recording nothing and sending nothing.
(Unlike `transmitMessage`, `cancelConnect` is not consulted.) -/
theorem c3_subscribe_gated (s : SockState) (sub : WsSubscription) :
    ((s.socket = some ReadyState.OPEN ∧ s.connected = true) →
      subscribe s sub =
        ({ s with subs := insertAssoc s.subs sub.method sub },
         [Effect.send sub.method sub.method sub.params]) ∧
      lookupAssoc (subscribe s sub).1.subs sub.method = some sub) ∧
    (¬(s.socket = some ReadyState.OPEN ∧ s.connected = true) →
      subscribe s sub = (s, [])) := by
  constructor
  · intro h
    have he : subscribe s sub =
        ({ s with subs := insertAssoc s.subs sub.method sub },
         [Effect.send sub.method sub.method sub.params]) := by
      unfold subscribe
      rw [if_pos h]
    refine ⟨he, ?_⟩
    rw [he]
    exact lookupAssoc_insertAssoc s.subs sub.method sub
  · intro h
    unfold subscribe
    rw [if_neg h]

theorem c3_witness :
    (openState.socket = some ReadyState.OPEN ∧ openState.connected = true) ∧
    subscribe openState sub0 =
      ({ openState with subs := insertAssoc openState.subs "m" sub0 },
       [Effect.send "m" "m" none]) ∧
    lookupAssoc (subscribe openState sub0).1.subs "m" = some sub0 := by
  have h := (c3_subscribe_gated openState sub0).1 ⟨rfl, rfl⟩
  exact ⟨⟨rfl, rfl⟩, h.1, h.2⟩

/-- C4 (counterexample): the transport error callback overwrites the memo
unconditionally — after `handleError` records a first error, a transport error
replaces it — and the memo is not reset by a full close; both refute the claim
that the memo always equals the first error of the episode and is reset at each
close. -/
theorem c4_counterexample :
    (handleError initState (Err.external 1)).1.error = some (Err.external 1) ∧
    (onTransportError (handleError initState (Err.external 1)).1 2).error =
      some (Err.wrapped 2) ∧
    Err.wrapped 2 ≠ Err.external 1 ∧
    (onSocketClose (onTransportError (handleError initState (Err.external 1)).1 2)
      (fun _ => false) false).1.error = some (Err.wrapped 2) :=
  ⟨rfl, rfl, by decide, rfl⟩

/-- C4 (amended): the generic error handler memoizes only the first error it is
given (a later `handleError` does not replace an existing memo), but an error
delivered via the transport's error callback unconditionally overwrites the
memo, and the memo is never reset at close — `onSocketClose` leaves it intact,
so a later close event may reuse an earlier episode's error. -/
theorem c4_error_memo (s : SockState) (e e0 : Err) (event : Nat)
    (θ : Nat → Bool) (emitThrows : Bool) :
    (handleError s e).1.error = some (s.error.getD e) ∧
    (s.error = some e0 → (handleError s e).1.error = some e0) ∧
    (onTransportError s event).error = some (Err.wrapped event) ∧
    (onSocketClose s θ emitThrows).1.error = s.error := by
  refine ⟨handleError_error s e, ?_, rfl,
    (onSocketClose_spec s θ emitThrows).2.2.2.2.1⟩
  intro h
  rw [handleError_error, h]
  rfl

theorem c4_witness :
    errState.error = some (Err.external 1) ∧
    (handleError errState (Err.external 9)).1.error = some (Err.external 1) ∧
    (onTransportError errState 2).error = some (Err.wrapped 2) ∧
    (onSocketClose errState (fun _ => false) false).1.error =
      some (Err.external 1) := by
  have h := c4_error_memo errState (Err.external 9) (Err.external 1) 2
    (fun _ => false) false
  exact ⟨rfl, h.2.1 rfl, h.2.2.1, h.2.2.2⟩

/-- C5: on every reachable state, the Pending correlation ids are pairwise
distinct decimal prints of counter values below `nextId`; `submitTask` assigns
the string of the current counter, increments the counter, and the assigned id
is never one still held by a pending entry; and the decimal print is injective,
so ids of distinct counter values are distinct strings. -/
theorem c5_ids_unique (cfg : Config) (w : World) (hw : Reach cfg w) :
    (keysOf w.s).Nodup ∧
    (∀ key ∈ keysOf w.s, ∃ k, k < w.s.nextId ∧ key = Nat.repr k) ∧
    (∀ (t : WsTask) (now : Int),
      keysOf (submitTask w.s t now).1 = keysOf w.s ++ [Nat.repr w.s.nextId] ∧
      (submitTask w.s t now).1.nextId = w.s.nextId + 1 ∧
      Nat.repr w.s.nextId ∉ keysOf w.s) ∧
    (∀ m n : Nat, Nat.repr m = Nat.repr n → m = n) := by
  obtain ⟨i1, i2, i3, i4⟩ := inv_reach cfg w hw
  refine ⟨i3, i4, ?_, fun m n h => natRepr_injective h⟩
  intro t now
  refine ⟨submitTask_keysOf _ _ _, submitTask_nextId _ _ _, ?_⟩
  intro hmem
  obtain ⟨k, hk, he⟩ := i4 _ hmem
  exact absurd (natRepr_injective he) (by omega)

theorem c5_witness :
    (keysOf c1World.s).Nodup ∧
    keysOf (submitTask c1World.s t0 5).1 =
      keysOf c1World.s ++ [Nat.repr c1World.s.nextId] ∧
    (submitTask c1World.s t0 5).1.nextId = c1World.s.nextId + 1 ∧
    Nat.repr c1World.s.nextId ∉ keysOf c1World.s := by
  have hr : Reach cfg0 c1World :=
    Relation.ReflTransGen.single
      (Step.submit initWorld t0 0 ⟨List.not_mem_nil _, List.not_mem_nil _⟩)
  have h := c5_ids_unique cfg0 c1World hr
  exact ⟨h.1, (h.2.2.1 t0 5).1, (h.2.2.1 t0 5).2.1, (h.2.2.1 t0 5).2.2⟩

/-- C6: `transmitMessage` puts a message on the wire if and only if the
transport exists, reports open, the connected flag is set, and no cancellation
is pending; when any condition fails the call is a no-op leaving the state (and
the Pending entry) unchanged; when the message is sent the entry's `startTime`
is refreshed to the current time. -/
theorem c6_transmit_gate (s : SockState) (id : String) (m : WsMessage)
    (now : Int) :
    ((s.socket ≠ none ∧ s.socket = some ReadyState.OPEN ∧ s.connected = true ∧
        s.cancelConnect = false) →
      transmitMessage s id m now =
        ({ s with pending := s.pending.map fun p =>
            if p.1 = id then (p.1, { p.2 with startTime := now }) else p },
         [Effect.send id m.task.method m.task.params]) ∧
      lookupAssoc (transmitMessage s id m now).1.pending id =
        (lookupAssoc s.pending id).map fun m0 => { m0 with startTime := now }) ∧
    (¬(s.socket ≠ none ∧ s.socket = some ReadyState.OPEN ∧ s.connected = true ∧
        s.cancelConnect = false) →
      transmitMessage s id m now = (s, [])) ∧
    ((transmitMessage s id m now).2 ≠ [] ↔
      (s.socket ≠ none ∧ s.socket = some ReadyState.OPEN ∧ s.connected = true ∧
        s.cancelConnect = false)) := by
  have hiff : canSend s ↔ (s.socket ≠ none ∧ s.socket = some ReadyState.OPEN ∧
      s.connected = true ∧ s.cancelConnect = false) := by
    unfold canSend
    constructor
    · rintro ⟨h1, h2, h3⟩
      exact ⟨by simp [h1], h1, h2, h3⟩
    · rintro ⟨_, h1, h2, h3⟩
      exact ⟨h1, h2, h3⟩
  refine ⟨?_, ?_, ?_⟩
  · intro h
    have hc := hiff.mpr h
    have he : transmitMessage s id m now =
        ({ s with pending := s.pending.map fun p =>
            if p.1 = id then (p.1, { p.2 with startTime := now }) else p },
         [Effect.send id m.task.method m.task.params]) := by
      unfold transmitMessage
      rw [if_pos hc]
    refine ⟨he, ?_⟩
    rw [he]
    exact lookupAssoc_map_refresh s.pending id now
  · intro h
    unfold transmitMessage
    rw [if_neg fun hc => h (hiff.mp hc)]
  · constructor
    · intro hne
      by_cases hc : canSend s
      · exact hiff.mp hc
      · have he : transmitMessage s id m now = (s, []) := by
          unfold transmitMessage
          rw [if_neg hc]
        exact absurd (congrArg Prod.snd he) hne
    · intro h
      have he : transmitMessage s id m now =
          ({ s with pending := s.pending.map fun p =>
              if p.1 = id then (p.1, { p.2 with startTime := now }) else p },
           [Effect.send id m.task.method m.task.params]) := by
        unfold transmitMessage
        rw [if_pos (hiff.mpr h)]
      rw [he]
      simp

theorem c6_witness :
    (openState.socket ≠ none ∧ openState.socket = some ReadyState.OPEN ∧
      openState.connected = true ∧ openState.cancelConnect = false) ∧
    transmitMessage openState "0" m7 5 =
      ({ openState with pending := openState.pending.map fun p =>
          if p.1 = "0" then (p.1, { p.2 with startTime := 5 }) else p },
       [Effect.send "0" m7.task.method m7.task.params]) ∧
    transmitMessage initState "0" m7 5 = (initState, []) := by
  have hcond : openState.socket ≠ none ∧
      openState.socket = some ReadyState.OPEN ∧
      openState.connected = true ∧ openState.cancelConnect = false := by
    refine ⟨by decide, rfl, rfl, rfl⟩
  exact ⟨hcond, ((c6_transmit_gate openState "0" m7 5).1 hcond).1,
    (c6_transmit_gate initState "0" m7 5).2.1 (by decide)⟩

/-- C7: `doWakeUp` runs its pull loop only when connected (otherwise it only
stamps `lastWakeUp`); every invocation of the pull callback observes a Pending
size strictly below the configured maximum; one cycle never grows Pending
beyond `max` of its initial size and the maximum (in particular never beyond
the maximum when it started within it); a `none` result stops the loop, `false`
stops it, `true` continues immediately, and any task is submitted; and the
configured maximum defaults to 50. -/
theorem c7_wakeup_backpressure (cfg : Config) (s : SockState) (now : Int)
    (pulls : List PullResult) (t : WsTask) (rest : List PullResult) :
    (s.connected = false →
      doWakeUp cfg s now pulls = ({ s with lastWakeUp := now }, [])) ∧
    (∀ n, Effect.pullInvoked n ∈ (doWakeUp cfg s now pulls).2 →
      n < cfg.queueSize) ∧
    (doWakeUp cfg s now pulls).1.pending.length ≤
      max s.pending.length cfg.queueSize ∧
    (s.pending.length ≤ cfg.queueSize →
      (doWakeUp cfg s now pulls).1.pending.length ≤ cfg.queueSize) ∧
    (s.pending.length < cfg.queueSize →
      doWakeUpLoop cfg s now (PullResult.skip :: rest) =
        (s, [Effect.pullInvoked s.pending.length]) ∧
      doWakeUpLoop cfg s now (PullResult.bool false :: rest) =
        (s, [Effect.pullInvoked s.pending.length]) ∧
      doWakeUpLoop cfg s now (PullResult.bool true :: rest) =
        ((doWakeUpLoop cfg s now rest).1,
          Effect.pullInvoked s.pending.length ::
            (doWakeUpLoop cfg s now rest).2) ∧
      doWakeUpLoop cfg s now (PullResult.task t :: rest) =
        ((doWakeUpLoop cfg (submitTask s t now).1 now rest).1,
          Effect.pullInvoked s.pending.length ::
            ((submitTask s t now).2 ++
              (doWakeUpLoop cfg (submitTask s t now).1 now rest).2))) ∧
    resolveQueueSize none = 50 := by
  have hb : (doWakeUp cfg s now pulls).1.pending.length ≤
      max s.pending.length cfg.queueSize := by
    unfold doWakeUp
    dsimp only
    split
    · exact doWakeUpLoop_length_le cfg now pulls _
    · exact Nat.le_max_left _ _
  refine ⟨?_, ?_, hb, fun h => ?_, ?_, rfl⟩
  · intro h
    unfold doWakeUp
    dsimp only
    rw [if_neg (by simp [h])]
  · intro n hmem
    unfold doWakeUp at hmem
    dsimp only at hmem
    split at hmem
    · exact doWakeUpLoop_pull_sizes cfg now pulls _ n hmem
    · exact absurd hmem (List.not_mem_nil _)
  · omega
  · intro hroom
    refine ⟨?_, ?_, ?_, ?_⟩ <;>
      (simp only [doWakeUpLoop]; rw [if_pos hroom])

theorem c7_witness :
    initState.connected = false ∧
    doWakeUp cfg0 initState 3 [PullResult.task t0] =
      ({ initState with lastWakeUp := 3 }, []) ∧
    openState.pending.length < cfg0.queueSize ∧
    doWakeUpLoop cfg0 openState 3 [PullResult.skip] =
      (openState, [Effect.pullInvoked openState.pending.length]) := by
  have h1 := c7_wakeup_backpressure cfg0 initState 3 [PullResult.task t0] t0 []
  have h2 := c7_wakeup_backpressure cfg0 openState 3 [] t0 []
  exact ⟨rfl, h1.1 rfl, by decide, (h2.2.2.2.2.1 (by decide)).1⟩

/-- C8: on each timer tick, every Pending entry whose `startTime` plus the
configured timeout is earlier than now (the current time minus the slack
constant) is rejected with a timeout error and removed from Pending, entries
not yet expired are kept unchanged, and the sweep is quantified over every
throw oracle `θ` — an exception while rejecting one entry does not stop the
sweep of the rest. -/
theorem c8_timeout_sweep (cfg : Config) (s : SockState) (dateNow : Int)
    (θ : Nat → Bool) :
    (onTimer cfg s dateNow θ).1.pending =
      s.pending.filter (fun p =>
        decide ¬(p.2.startTime + cfg.timeoutMs < dateNow - TIMER_SLACK)) ∧
    (∀ p ∈ s.pending, p.2.startTime + cfg.timeoutMs < dateNow - TIMER_SLACK →
      Effect.taskReject p.2.task.tag Err.timeout ∈ (onTimer cfg s dateNow θ).2 ∧
      p ∉ (onTimer cfg s dateNow θ).1.pending) ∧
    (∀ p ∈ s.pending, ¬(p.2.startTime + cfg.timeoutMs < dateNow - TIMER_SLACK) →
      p ∈ (onTimer cfg s dateNow θ).1.pending) := by
  obtain ⟨hp, hn, _, _⟩ := onTimer_spec cfg s dateNow θ
  refine ⟨hp, ?_, ?_⟩
  · intro p hmem hexp
    refine ⟨onTimer_reject_mem cfg s dateNow θ p hmem hexp, ?_⟩
    rw [hp]
    intro hmem2
    have hcond := (List.mem_filter.mp hmem2).2
    simp at hcond
    omega
  · intro p hmem hlive
    rw [hp]
    exact List.mem_filter.mpr ⟨hmem, decide_eq_true hlive⟩

theorem c8_witness :
    ("0", m7) ∈ timerState.pending ∧
    (m7.startTime + cfg0.timeoutMs < 50000 - TIMER_SLACK) ∧
    Effect.taskReject 7 Err.timeout ∈
      (onTimer cfg0 timerState 50000 (fun _ => false)).2 ∧
    ("0", m7) ∉ (onTimer cfg0 timerState 50000 (fun _ => false)).1.pending ∧
    ("1", m8) ∈ (onTimer cfg0 timerState 50000 (fun _ => false)).1.pending := by
  have h := c8_timeout_sweep cfg0 timerState 50000 (fun _ => false)
  have hexp : m7.startTime + cfg0.timeoutMs < 50000 - TIMER_SLACK := by decide
  have hlive : ¬(m8.startTime + cfg0.timeoutMs < 50000 - TIMER_SLACK) := by decide
  exact ⟨List.mem_cons_self _ _, hexp,
    (h.2.1 _ (List.mem_cons_self _ _) hexp).1,
    (h.2.1 _ (List.mem_cons_self _ _) hexp).2,
    h.2.2 _ (List.mem_cons_of_mem _ (List.mem_cons_self _ _)) hlive⟩

/-- C9: an inbound frame whose id matches neither a live subscription's method
key nor any Pending entry raises a 'Bad response id' error into the generic
error handler (memoized if no earlier error), which disconnects the whole
connection when it is open at that moment (and otherwise sets the cancellation
flag); the frame resolves and rejects no task's Deferred and leaves Pending
untouched — in particular a late response to a timed-out task never resolves
it. -/
theorem c9_bad_response_id (s : SockState) (id : String) (marker : Bool)
    (data : Option Nat) (srvErr : Option SrvErr)
    (hsub : lookupAssoc s.subs id = none)
    (hpend : lookupAssoc s.pending id = none) :
    (onMessage s (Inbound.frame id marker data srvErr)).1.error =
      some (s.error.getD Err.badResponseId) ∧
    (onMessage s (Inbound.frame id marker data srvErr)).1.pending = s.pending ∧
    (s.connected = true ∧ s.socket = some ReadyState.OPEN →
      (onMessage s (Inbound.frame id marker data srvErr)).1.connected = false ∧
      Effect.transportDisconnect ∈
        (onMessage s (Inbound.frame id marker data srvErr)).2 ∧
      Effect.removeFromQueue ∈
        (onMessage s (Inbound.frame id marker data srvErr)).2) ∧
    (¬(s.connected = true ∧ s.socket = some ReadyState.OPEN) →
      (onMessage s (Inbound.frame id marker data srvErr)).1.cancelConnect = true) ∧
    (∀ tag v, Effect.taskResolve tag v ∉
      (onMessage s (Inbound.frame id marker data srvErr)).2) ∧
    (∀ tag e, Effect.taskReject tag e ∉
      (onMessage s (Inbound.frame id marker data srvErr)).2) := by
  have hred : onMessage s (Inbound.frame id marker data srvErr) =
      ((handleError s Err.badResponseId).1,
        (handleError s Err.badResponseId).2 ++ [Effect.scheduleWakeUp]) := by
    simp only [onMessage, hsub, hpend]
  rw [hred]
  have hsetnil : settledOf ((handleError s Err.badResponseId).2 ++
      [Effect.scheduleWakeUp]) = [] := by
    rw [settledOf_append, handleError_settledOf]
    rfl
  obtain ⟨hnores, hnorej⟩ := not_settling_of_settledOf_nil _ hsetnil
  refine ⟨handleError_error s _, handleError_pending s _, ?_, ?_, hnores, hnorej⟩
  · intro h
    obtain ⟨h1, h2, h3⟩ := handleError_open s Err.badResponseId h
    exact ⟨h1, List.mem_append_left _ h2, List.mem_append_left _ h3⟩
  · intro h
    exact handleError_notOpen s Err.badResponseId h

theorem c9_witness :
    lookupAssoc openState.subs "z" = none ∧
    lookupAssoc openState.pending "z" = none ∧
    (onMessage openState (Inbound.frame "z" false none none)).1.error =
      some Err.badResponseId ∧
    (onMessage openState (Inbound.frame "z" false none none)).1.connected =
      false ∧
    Effect.transportDisconnect ∈
      (onMessage openState (Inbound.frame "z" false none none)).2 := by
  have h := c9_bad_response_id openState "z" false none none rfl rfl
  have h3 := h.2.2.1 ⟨rfl, rfl⟩
  exact ⟨rfl, rfl, h.1, h3.1, h3.2.1⟩

/-- C10 (counterexample): an input URI already ending in a doubled
`/websocket/websocket` suffix is returned unchanged by the normalization, so
the result does not end in exactly one `/websocket` suffix — refuting the
claim's headline for this input. -/
theorem c10_counterexample :
    normalizeUri (['a'] ++ wsSuffix ++ wsSuffix) =
      ['a'] ++ wsSuffix ++ wsSuffix ∧
    ¬endsInExactlyOneWebsocket (normalizeUri (['a'] ++ wsSuffix ++ wsSuffix)) :=
  ⟨by decide, by decide⟩

/-- C10 (amended): the normalization always produces a string ending in
`/websocket`; the suffix is appended when no terminal `/websocket` (with or
without a trailing slash) is present; a single existing terminal `/websocket`
is not duplicated (the input is returned unchanged), a terminal `/websocket/`
merely loses its trailing slash; and the normalization is idempotent.  An input
already ending in a repeated suffix, however, keeps the repetition. -/
theorem c10_normalize_uri (s : List Char) :
    wsSuffix <:+ normalizeUri s ∧
    (¬wsSuffix.isSuffixOf s → ¬(wsSuffix ++ ['/']).isSuffixOf s →
      normalizeUri s = s ++ wsSuffix) ∧
    (wsSuffix <:+ s → normalizeUri s = s) ∧
    ((wsSuffix ++ ['/']) <:+ s → normalizeUri s ++ ['/'] = s) ∧
    normalizeUri (normalizeUri s) = normalizeUri s := by
  refine ⟨normalizeUri_endsWith s, fun h h' => normalizeUri_of_not_suffix s h h',
    normalizeUri_of_suffix s, ?_, normalizeUri_idempotent s⟩
  rintro ⟨t, rfl⟩
  unfold normalizeUri
  rw [stripWebsocketSuffix_append_slash, List.append_assoc]

theorem c10_witness :
    ¬wsSuffix.isSuffixOf ['a'] ∧ ¬(wsSuffix ++ ['/']).isSuffixOf ['a'] ∧
    normalizeUri ['a'] = ['a'] ++ wsSuffix :=
  ⟨by decide, by decide,
    (c10_normalize_uri ['a']).2.1 (by decide) (by decide)⟩

end SocketModel
